import Mathlib

set_option linter.unusedVariables false

/-!
Shallow embedding of the sticky-coordination engine of
`packages/office-ui-fabric-react/src/components/ScrollablePane/ScrollablePane.base.tsx`.

DOM elements are identified by natural numbers.  The two pinned containers
(`stickyAbove`, `stickyBelow`) are modelled as ordered lists of the element
ids of their direct children (the pinned representations of the sticky
regions); `none` models a `null` ref before mount.  JavaScript
`Array.prototype.sort` (stable per ES2019) is modelled by a stable insertion
sort.  `Node.insertBefore(node, null)` appends; `Node.removeChild` faults
with `NotFoundError` when the argument is not a child, modelled with
`Except`.  The `Sticky` component itself is an external collaborator (its
source is not part of this repository); the few commands the pane sends it
(`addSticky`, `resetSticky`, `setDistanceFromTop`) are modelled from the
spec where noted.
-/

inductive Side where
  | top
  | bottom
deriving DecidableEq, Repr

/-- Location of a region's normal-flow content node (`nonStickyContent`):
inside the region's top pinned representation, inside its bottom pinned
representation, inside the scrollable content container, or detached from
all of these. -/
inductive Loc where
  | inTopRep
  | inBottomRep
  | inContent
  | detached
deriving DecidableEq, Repr

/-- A Sticky region as seen by the pane: capability flags, measured
distance from top, self-owned pin state (`this.state` of the Sticky),
element ids of its pinned representations and of its normal-flow content
node (each possibly `null`), the rendered height of the content node, the
current location of the content node, and whether the region's `root` ref
is set.  Identity (`id`) stands for JavaScript object reference identity. -/
structure Sticky where
  id : Nat
  canStickyTop : Bool
  canStickyBottom : Bool
  distanceFromTop : Int
  isStickyTop : Bool
  isStickyBottom : Bool
  stickyContentTop : Option Nat
  stickyContentBottom : Option Nat
  nonStickyContent : Option Nat
  offsetHeight : Nat
  contentLoc : Loc
  hasRoot : Bool
deriving DecidableEq, Repr

/-- State of a `ScrollablePaneBase` instance: the registry
(`this._stickies`, a `Set` iterated in insertion order), the two pinned
containers (direct children lists, `none` before mount), whether the
content container is mounted, and the two height components of
`this.state`. -/
structure PaneState where
  stickies : List Sticky
  stickyAbove : Option (List Nat)
  stickyBelow : Option (List Nat)
  contentContainer : Bool
  stickyTopHeight : Nat
  stickyBottomHeight : Nat
deriving DecidableEq, Repr

/-- Pinned representation of a region for a given edge:
`stickyContentTop` for the top container, `stickyContentBottom` for the
bottom one. -/
def repOf (side : Side) (st : Sticky) : Option Nat :=
  match side with
  | .top => st.stickyContentTop
  | .bottom => st.stickyContentBottom

/-- Helper for `insertBefore`: insert `x` immediately before the first
occurrence of `t`.  (DOM `insertBefore` faults if `t` is absent; every
call site below passes a reference node that is a child, so the absent
case — append — is unreachable there.) -/
def insertBeforeGo (t x : Nat) : List Nat → List Nat
  | [] => [x]
  | y :: ys => if y = t then x :: y :: ys else y :: insertBeforeGo t x ys

/-- DOM `container.insertBefore(x, target)`: with a `null` target the node
is appended at the end, otherwise inserted before the target. -/
def insertBefore (l : List Nat) (x : Nat) : Option Nat → List Nat
  | none => l ++ [x]
  | some t => insertBeforeGo t x l

/-- DOM `container.removeChild(c)`: removes the child, faulting with
`NotFoundError` when `c` is not a child of the container. -/
def removeChild (children : List Nat) (c : Nat) : Except String (List Nat) :=
  if children.contains c then Except.ok (children.erase c) else Except.error "NotFoundError"

/-- Stable insertion of one element into a distance-sorted list: the new
element goes before the first element whose distance is not smaller, which
keeps elements with equal keys in their original relative order. -/
def insertByDist (x : Sticky) : List Sticky → List Sticky
  | [] => [x]
  | y :: ys => if y.distanceFromTop < x.distanceFromTop then y :: insertByDist x ys else x :: y :: ys

/-- Stable sort by ascending `distanceFromTop`, modelling
`Array.prototype.sort` with comparator `(a, b) => a.distanceFromTop - b.distanceFromTop`
(stable per ES2019). -/
def sortByDist : List Sticky → List Sticky
  | [] => []
  | x :: xs => insertByDist x (sortByDist xs)

/-- Candidate accumulation of `_addToStickyContainer`, the `forEach` over
`this._stickies`.  The source tests `sticky.canStickyTop` and
`sticky.canStickyBottom` — the flags of the region being placed, not of
the iterated item — so the predicate is constant across items:
`if (stickyContainer === this.stickyAbove && sticky.canStickyTop) push(stickyItem) else if (sticky.canStickyBottom) push(stickyItem)`. -/
def candidateList (reg : List Sticky) (sticky : Sticky) (side : Side) : List Sticky :=
  reg.filter (fun _ =>
    if side = Side.top ∧ sticky.canStickyTop = true then true else sticky.canStickyBottom)

/-- The `stickyListSorted` value of `_addToStickyContainer`: candidates
sorted ascending by `distanceFromTop`, then filtered to the items whose
pinned representation for the target edge is one of the container's
current children (items with a `null` representation are dropped, the
filter callback returning `undefined` for them). -/
def candidateListSorted (reg : List Sticky) (sticky : Sticky) (side : Side)
    (children : List Nat) : List Sticky :=
  (sortByDist (candidateList reg sticky side)).filter (fun item =>
    match repOf side item with
    | some c => children.contains c
    | none => false)

/-- The body of `_addToStickyContainer(sticky, stickyContainer, stickyContentToAdd)`
acting on one container's children list.  If the container has no
children, append.  If the representation is already a child, do nothing.
Otherwise scan the sorted candidate list for the first item whose
`distanceFromTop` is `>=` the placed region's and insert before that
item's representation (inserting before `null`, i.e. appending, when no
such item exists). -/
def addToStickyContainer (reg : List Sticky) (sticky : Sticky) (side : Side)
    (contentToAdd : Nat) (children : List Nat) : List Nat :=
  if children.length = 0 then
    children ++ [contentToAdd]
  else if children.contains contentToAdd then
    children
  else
    let sorted := candidateListSorted reg sticky side children
    let target? := sorted.find? (fun item => decide (sticky.distanceFromTop ≤ item.distanceFromTop))
    let targetContainer : Option Nat :=
      match target? with
      | some t => repOf side t
      | none => none
    insertBefore children contentToAdd targetContainer

/-- The pane's `sortSticky`: requires both container refs to be non-null
(a conjunction), then places the top representation when
`sticky.canStickyTop && Sticky.stickyContentTop` and the bottom
representation when `sticky.canStickyBottom && sticky.stickyContentBottom`. -/
def sortSticky (s : PaneState) (sticky : Sticky) : PaneState :=
  match s.stickyAbove, s.stickyBelow with
  | some above, some below =>
    let s1 :=
      if sticky.canStickyTop then
        match sticky.stickyContentTop with
        | some c =>
          { s with stickyAbove := some (addToStickyContainer s.stickies sticky Side.top c above) }
        | none => s
      else s
    if sticky.canStickyBottom then
      match sticky.stickyContentBottom with
      | some c =>
        { s1 with stickyBelow := some (addToStickyContainer s1.stickies sticky Side.bottom c below) }
      | none => s1
    else s1
  | _, _ => s

/-- Set-insert into the registry: `this._stickies.add(sticky)` is a no-op
when the same object (same identity) is already present. -/
def addToSet (reg : List Sticky) (st : Sticky) : List Sticky :=
  if reg.any (fun x => x.id == st.id) then reg else reg ++ [st]

/-- The pane's `addSticky`: insert into the registry, then — if the
content container is mounted — recompute the region's distance
(`sticky.setDistanceFromTop`, an external measurement whose result the
`distanceFromTop` field already carries in this model) and place it with
`sortSticky`.  `notifySubscribers` has no effect on this state. -/
def addSticky (s : PaneState) (st : Sticky) : PaneState :=
  let s1 := { s with stickies := addToSet s.stickies st }
  if s1.contentContainer then sortSticky s1 st else s1

/-- The pane's `_removeStickyFromContainers`: for each container that is
mounted and each representation that is non-null, call DOM `removeChild`
unconditionally — faulting when the representation is not currently a
child. -/
def removeStickyFromContainers (s : PaneState) (st : Sticky) : Except String PaneState :=
  match s.stickyAbove, st.stickyContentTop with
  | some above, some c =>
    (match removeChild above c with
     | Except.error e => Except.error e
     | Except.ok above' =>
       match s.stickyBelow, st.stickyContentBottom with
       | some below, some d =>
         (match removeChild below d with
          | Except.error e => Except.error e
          | Except.ok below' =>
            Except.ok { s with stickyAbove := some above', stickyBelow := some below' })
       | _, _ => Except.ok { s with stickyAbove := some above' })
  | _, _ =>
    match s.stickyBelow, st.stickyContentBottom with
    | some below, some d =>
      (match removeChild below d with
       | Except.error e => Except.error e
       | Except.ok below' => Except.ok { s with stickyBelow := some below' })
    | _, _ => Except.ok s

/-- The pane's `removeSticky`: delete from the registry (by identity),
then detach the representations; an exception from `removeChild`
propagates after the registry deletion has happened.
`notifySubscribers` has no effect on this state. -/
def removeSticky (s : PaneState) (st : Sticky) : Except String PaneState :=
  removeStickyFromContainers
    { s with stickies := s.stickies.eraseP (fun x => x.id == st.id) } st

/-- DOM `container.contains(sticky.nonStickyContent)` for a pinned
container: the content node lies in the container's subtree exactly when
the representation currently hosting it is one of the container's
children. -/
def containsContent (children : List Nat) (st : Sticky) : Bool :=
  match st.contentLoc with
  | .inTopRep =>
    match st.stickyContentTop with
    | some r => children.contains r
    | none => false
  | .inBottomRep =>
    match st.stickyContentBottom with
    | some r => children.contains r
    | none => false
  | _ => false

/-- Modelled from the spec: `Sticky.addSticky(representation)` — a command
on the external Sticky region (its source is not part of this repository)
that moves the region's normal-flow content into the given pinned
representation.  Only the content location changes. -/
def stickyAddSticky (st : Sticky) (rep : Nat) : Sticky :=
  if st.stickyContentTop = some rep then { st with contentLoc := Loc.inTopRep }
  else if st.stickyContentBottom = some rep then { st with contentLoc := Loc.inBottomRep }
  else st

/-- Modelled from the spec: `Sticky.resetSticky()` — a command on the
external Sticky region that returns its content to the unpinned baseline
inside the scrollable content container. -/
def stickyResetSticky (st : Sticky) : Sticky :=
  { st with contentLoc := Loc.inContent }

/-- Commands the reconciliation check sends to a Sticky region. -/
inductive StickyCmd where
  | addCmd (rep : Nat)
  | resetCmd
deriving DecidableEq, Repr

/-- First conditional of the pinned branch of `_checkStickyStatus`:
when the region reports pinned-top and the top container does not contain
its content node, and the top representation is non-null, issue
`sticky.addSticky(stickyContentTop)`. -/
def checkTopEdge (above : List Nat) (st : Sticky) : Sticky × List StickyCmd :=
  if st.isStickyTop = true ∧ containsContent above st = false then
    match st.stickyContentTop with
    | some rep => (stickyAddSticky st rep, [StickyCmd.addCmd rep])
    | none => (st, [])
  else (st, [])

/-- Second conditional of the pinned branch of `_checkStickyStatus`: the
bottom test observes the DOM as left by the top command, hence it takes
the intermediate pair. -/
def checkBottomEdge (below : List Nat) (p : Sticky × List StickyCmd) : Sticky × List StickyCmd :=
  if p.1.isStickyBottom = true ∧ containsContent below p.1 = false then
    match p.1.stickyContentBottom with
    | some rep => (stickyAddSticky p.1 rep, p.2 ++ [StickyCmd.addCmd rep])
    | none => p
  else p

/-- The pane's `_checkStickyStatus(sticky)`: guarded by both containers,
the content container and `sticky.nonStickyContent` all being present.
When the region reports a pinned state on either edge, run the top edge
check and then the bottom edge check (the latter observes the DOM as left
by the former).  When both state flags are false and the content node is
not inside the content container, `sticky.resetSticky()` is issued.
Returns the updated region and the list of commands issued. -/
def checkStickyStatus (s : PaneState) (st : Sticky) : Sticky × List StickyCmd :=
  match s.stickyAbove, s.stickyBelow with
  | some above, some below =>
    if s.contentContainer ∧ st.nonStickyContent.isSome then
      if st.isStickyTop || st.isStickyBottom then
        checkBottomEdge below (checkTopEdge above st)
      else
        if st.contentLoc = Loc.inContent then (st, [])
        else (stickyResetSticky st, [StickyCmd.resetCmd])
    else (st, [])
  | _, _ => (st, [])

/-- The pane's `updateStickyRefHeights`: one pass over the registry in
insertion order; regions with a `null` `nonStickyContent` are skipped
entirely; otherwise the region's `offsetHeight` is added to the top
accumulator when `isStickyTop` and to the bottom accumulator when
`isStickyBottom` (the same single measurement on both edges), and the
reconciliation check runs on the region.  The accumulators replace the
previous heights via `setState`. -/
def updateStickyRefHeights (s : PaneState) : PaneState :=
  let heights := s.stickies.foldl
    (fun (acc : Nat × Nat) st =>
      if st.nonStickyContent.isSome then
        ((if st.isStickyTop then acc.1 + st.offsetHeight else acc.1),
         (if st.isStickyBottom then acc.2 + st.offsetHeight else acc.2))
      else acc) (0, 0)
  let stickies' := s.stickies.map (fun st =>
    if st.nonStickyContent.isSome then (checkStickyStatus s st).1 else st)
  { s with stickies := stickies',
           stickyTopHeight := heights.1, stickyBottomHeight := heights.2 }

/-- A mutation record, abstracted to the containment facts the handler
reads about its `target`: whether the target lies inside the
`stickyAbove` (resp. `stickyBelow`) container subtree, and, for each
region id, whether that region's `root` element contains the target. -/
structure MutationRecord where
  inAbove : Bool
  inBelow : Bool
  inRootOf : Nat → Bool

/-- Observable actions of the mutation handler. -/
inductive PaneAction where
  | broadcast
  | updateHeights
  | forceUpdate (id : Nat)
deriving DecidableEq, Repr

/-- The handler's inner `checkIfMutationIsSticky(mutationRecord)`: only
when both container refs are non-null does it test the record's target
for containment in either container; otherwise it returns `false`. -/
def checkIfMutationIsSticky (s : PaneState) (r : MutationRecord) : Bool :=
  if s.stickyAbove.isSome && s.stickyBelow.isSome then r.inAbove || r.inBelow else false

/-- The `MutationObserver` callback of `componentDidMount`: broadcast
first (`notifySubscribers`, which invokes handlers only when the content
container is mounted), then either recompute heights — when some record's
target lies in a pinned container — or force-update exactly the regions
whose `root` contains the first record's target.  On an empty batch the
else-branch dereferences `mutation[0].target` on `undefined`; that fault
is modelled as `none`. -/
def handleMutation (s : PaneState) (records : List MutationRecord) :
    Option (PaneState × List PaneAction) :=
  let bcast : List PaneAction := if s.contentContainer then [PaneAction.broadcast] else []
  if records.any (fun r => checkIfMutationIsSticky s r) then
    some (updateStickyRefHeights s, bcast ++ [PaneAction.updateHeights])
  else
    match records.head? with
    | none => none
    | some r0 =>
      let stickyList := s.stickies.filter (fun st => st.hasRoot && r0.inRootOf st.id)
      some (s, bcast ++ stickyList.map (fun st => PaneAction.forceUpdate st.id))

/-- Public `sortSticky` invoked on the registered region with the given
identity (callers hold a reference to a registered Sticky); a no-op when
no such region is registered. -/
def sortStickyById (s : PaneState) (i : Nat) : PaneState :=
  match s.stickies.find? (fun st => st.id == i) with
  | some st => sortSticky s st
  | none => s

/-- An external capability/pin-state change on the registered region with
the given identity: the Sticky component owns these flags and may change
them at any time; nothing else about the region changes. -/
def setFlagsById (s : PaneState) (i : Nat) (cT cB iT iB : Bool) : PaneState :=
  { s with stickies := s.stickies.map (fun st =>
      if st.id == i then
        { st with canStickyTop := cT, canStickyBottom := cB,
                  isStickyTop := iT, isStickyBottom := iB }
      else st) }

/-- Pane state right after mount: empty registry, both pinned containers
mounted and empty, content container mounted, zero heights. -/
def initialPane : PaneState :=
  { stickies := [], stickyAbove := some [], stickyBelow := some [],
    contentContainer := true, stickyTopHeight := 0, stickyBottomHeight := 0 }

/-- Modelled from the spec's words (refinement comparison for the
candidate-list rule of §4.2): candidate sibling list = regions in the
registry whose corresponding capability flag — each item's own
`canStickyTop` for the top container, `canStickyBottom` for the bottom —
matches the target edge, sorted ascending by `distanceFromTop`, filtered
to those whose representation is already a child. -/
def specCandidateListSorted (reg : List Sticky) (side : Side) (children : List Nat) : List Sticky :=
  (sortByDist (reg.filter (fun item =>
    match side with
    | Side.top => item.canStickyTop
    | Side.bottom => item.canStickyBottom))).filter (fun item =>
    match repOf side item with
    | some c => children.contains c
    | none => false)

/-- Modelled from the spec's words: the placement algorithm of §4.2 with
the candidate list built from each item's own capability flag; identical
to `addToStickyContainer` in every other respect. -/
def specAddToStickyContainer (reg : List Sticky) (sticky : Sticky) (side : Side)
    (contentToAdd : Nat) (children : List Nat) : List Nat :=
  if children.length = 0 then
    children ++ [contentToAdd]
  else if children.contains contentToAdd then
    children
  else
    let sorted := specCandidateListSorted reg side children
    let target? := sorted.find? (fun item => decide (sticky.distanceFromTop ≤ item.distanceFromTop))
    let targetContainer : Option Nat :=
      match target? with
      | some t => repOf side t
      | none => none
    insertBefore children contentToAdd targetContainer

/-- Rendered height of a region's normal-flow content: `offsetHeight`
when the content node exists, `0` when the ref is `null` (a null ref has
no rendered box). -/
def renderedHeight (st : Sticky) : Nat :=
  match st.nonStickyContent with
  | some _ => st.offsetHeight
  | none => 0

/-- Sum of rendered heights of the regions currently flagged pinned-top. -/
def pinnedTopHeightSum (reg : List Sticky) : Nat :=
  ((reg.filter (fun st => st.isStickyTop)).map renderedHeight).sum

/-- Sum of rendered heights of the regions currently flagged pinned-bottom. -/
def pinnedBottomHeightSum (reg : List Sticky) : Nat :=
  ((reg.filter (fun st => st.isStickyBottom)).map renderedHeight).sum

theorem heightsFold_eq (l : List Sticky) (t b : Nat) :
    l.foldl
      (fun (acc : Nat × Nat) st =>
        if st.nonStickyContent.isSome then
          ((if st.isStickyTop then acc.1 + st.offsetHeight else acc.1),
           (if st.isStickyBottom then acc.2 + st.offsetHeight else acc.2))
        else acc) (t, b)
      = (t + pinnedTopHeightSum l, b + pinnedBottomHeightSum l) := by
  induction l generalizing t b with
  | nil => simp [pinnedTopHeightSum, pinnedBottomHeightSum]
  | cons st rest ih =>
    simp only [List.foldl_cons]
    rcases hn : st.nonStickyContent with _ | v <;>
      rcases ht : st.isStickyTop with _ | _ <;>
      rcases hb : st.isStickyBottom with _ | _ <;>
      simp [hn, ht, hb, ih, pinnedTopHeightSum, pinnedBottomHeightSum, renderedHeight] <;>
      omega

/-- C5: after `updateStickyRefHeights` runs, the reported top (resp.
bottom) pinned height equals the sum of the rendered heights of exactly
the registered regions whose `isStickyTop` (resp. `isStickyBottom`) flag
is true; the totals are functions of the current registry alone (never of
the previous heights), and a region flagged on both edges contributes the
same single `offsetHeight` measurement to each sum (both sums read
`renderedHeight`). -/
theorem updateStickyRefHeights_heights (s : PaneState) :
    (updateStickyRefHeights s).stickyTopHeight = pinnedTopHeightSum s.stickies ∧
    (updateStickyRefHeights s).stickyBottomHeight = pinnedBottomHeightSum s.stickies := by
  simp only [updateStickyRefHeights]
  rw [heightsFold_eq]
  simp

theorem pinnedTopHeightSum_middle_none (l1 l2 : List Sticky) (st : Sticky)
    (hn : st.nonStickyContent = none) :
    pinnedTopHeightSum (l1 ++ st :: l2) = pinnedTopHeightSum (l1 ++ l2) := by
  cases ht : st.isStickyTop <;>
    simp [pinnedTopHeightSum, List.filter_append, List.filter_cons, ht, renderedHeight, hn]

theorem pinnedBottomHeightSum_middle_none (l1 l2 : List Sticky) (st : Sticky)
    (hn : st.nonStickyContent = none) :
    pinnedBottomHeightSum (l1 ++ st :: l2) = pinnedBottomHeightSum (l1 ++ l2) := by
  cases hb : st.isStickyBottom <;>
    simp [pinnedBottomHeightSum, List.filter_append, List.filter_cons, hb, renderedHeight, hn]

/-- C10: a registered region whose `nonStickyContent` ref is null
contributes `0` to both height totals (the totals equal those computed
with the region absent), and the pass leaves that region entirely
untouched — the reconciliation check is skipped for it — even when its
`isStickyTop` or `isStickyBottom` flag is true. -/
theorem updateStickyRefHeights_skipsNullContent (s : PaneState) (l1 l2 : List Sticky)
    (st : Sticky) (hs : s.stickies = l1 ++ st :: l2) (hn : st.nonStickyContent = none) :
    (updateStickyRefHeights s).stickyTopHeight
      = (updateStickyRefHeights { s with stickies := l1 ++ l2 }).stickyTopHeight ∧
    (updateStickyRefHeights s).stickyBottomHeight
      = (updateStickyRefHeights { s with stickies := l1 ++ l2 }).stickyBottomHeight ∧
    (updateStickyRefHeights s).stickies
      = l1.map (fun x => if x.nonStickyContent.isSome then (checkStickyStatus s x).1 else x)
        ++ st :: l2.map (fun x => if x.nonStickyContent.isSome then (checkStickyStatus s x).1 else x) := by
  refine ⟨?_, ?_, ?_⟩
  · simp only [updateStickyRefHeights, hs]
    rw [heightsFold_eq, heightsFold_eq]
    simp [pinnedTopHeightSum_middle_none l1 l2 st hn]
  · simp only [updateStickyRefHeights, hs]
    rw [heightsFold_eq, heightsFold_eq]
    simp [pinnedBottomHeightSum_middle_none l1 l2 st hn]
  · unfold updateStickyRefHeights
    simp [hs, hn]

/-- C10 witness: a concrete pane with one null-content pinned-top region
between two measured regions. -/
theorem updateStickyRefHeights_skipsNullContent_witness :
    (updateStickyRefHeights
        { stickies :=
            [{ id := 1, canStickyTop := true, canStickyBottom := false, distanceFromTop := 1,
               isStickyTop := true, isStickyBottom := false, stickyContentTop := some 11,
               stickyContentBottom := none, nonStickyContent := some 41, offsetHeight := 7,
               contentLoc := Loc.inContent, hasRoot := true },
             { id := 2, canStickyTop := true, canStickyBottom := false, distanceFromTop := 2,
               isStickyTop := true, isStickyBottom := true, stickyContentTop := some 12,
               stickyContentBottom := none, nonStickyContent := none, offsetHeight := 9,
               contentLoc := Loc.inContent, hasRoot := true }],
          stickyAbove := some [], stickyBelow := some [], contentContainer := true,
          stickyTopHeight := 0, stickyBottomHeight := 0 }).stickyTopHeight = 7 := by
  have h := updateStickyRefHeights_skipsNullContent
    { stickies :=
        [{ id := 1, canStickyTop := true, canStickyBottom := false, distanceFromTop := 1,
           isStickyTop := true, isStickyBottom := false, stickyContentTop := some 11,
           stickyContentBottom := none, nonStickyContent := some 41, offsetHeight := 7,
           contentLoc := Loc.inContent, hasRoot := true },
         { id := 2, canStickyTop := true, canStickyBottom := false, distanceFromTop := 2,
           isStickyTop := true, isStickyBottom := true, stickyContentTop := some 12,
           stickyContentBottom := none, nonStickyContent := none, offsetHeight := 9,
           contentLoc := Loc.inContent, hasRoot := true }],
      stickyAbove := some [], stickyBelow := some [], contentContainer := true,
      stickyTopHeight := 0, stickyBottomHeight := 0 }
    [{ id := 1, canStickyTop := true, canStickyBottom := false, distanceFromTop := 1,
       isStickyTop := true, isStickyBottom := false, stickyContentTop := some 11,
       stickyContentBottom := none, nonStickyContent := some 41, offsetHeight := 7,
       contentLoc := Loc.inContent, hasRoot := true }] []
    { id := 2, canStickyTop := true, canStickyBottom := false, distanceFromTop := 2,
      isStickyTop := true, isStickyBottom := true, stickyContentTop := some 12,
      stickyContentBottom := none, nonStickyContent := none, offsetHeight := 9,
      contentLoc := Loc.inContent, hasRoot := true } (by decide) (by decide)
  rw [h.1]
  decide

theorem contains_insertBeforeGo (t x : Nat) (l : List Nat) :
    (insertBeforeGo t x l).contains x = true := by
  induction l with
  | nil => simp [insertBeforeGo]
  | cons y ys ih =>
    by_cases h : y = t <;>
      (simp [insertBeforeGo, h, ih]
       try exact Or.inr (by simpa using ih))

theorem contains_insertBefore (l : List Nat) (x : Nat) (tgt : Option Nat) :
    (insertBefore l x tgt).contains x = true := by
  cases tgt with
  | none => simp [insertBefore]
  | some t => simpa [insertBefore] using contains_insertBeforeGo t x l

theorem contains_addToStickyContainer_self (reg : List Sticky) (st : Sticky) (side : Side)
    (c : Nat) (children : List Nat) :
    (addToStickyContainer reg st side c children).contains c = true := by
  unfold addToStickyContainer
  split
  · simp
  · split
    · assumption
    · exact contains_insertBefore _ _ _

theorem addToStickyContainer_of_contains (reg : List Sticky) (st : Sticky) (side : Side)
    (c : Nat) (children : List Nat) (h : children.contains c = true) :
    addToStickyContainer reg st side c children = children := by
  have hlen : ¬ children.length = 0 := by
    intro h0
    rcases children with _ | ⟨y, ys⟩
    · simp at h
    · simp at h0
  have h' : c ∈ children := by simpa using h
  unfold addToStickyContainer
  simp [hlen, h']

/-- One edge of `sortSticky`: place the representation when the
corresponding capability flag and representation node are present. -/
def placeEdge (reg : List Sticky) (st : Sticky) (side : Side) (children : List Nat) : List Nat :=
  if (match side with | Side.top => st.canStickyTop | Side.bottom => st.canStickyBottom) then
    match repOf side st with
    | some c => addToStickyContainer reg st side c children
    | none => children
  else children

theorem sortSticky_none_left (s : PaneState) (st : Sticky) (h : s.stickyAbove = none) :
    sortSticky s st = s := by
  unfold sortSticky
  rw [h]

theorem sortSticky_none_right (s : PaneState) (st : Sticky) (h : s.stickyBelow = none) :
    sortSticky s st = s := by
  unfold sortSticky
  rw [h]
  rcases s.stickyAbove with _ | above <;> rfl

theorem sortSticky_some (s : PaneState) (st : Sticky) (above below : List Nat)
    (ha : s.stickyAbove = some above) (hb : s.stickyBelow = some below) :
    sortSticky s st = { s with
      stickyAbove := some (placeEdge s.stickies st Side.top above),
      stickyBelow := some (placeEdge s.stickies st Side.bottom below) } := by
  unfold sortSticky placeEdge repOf
  rw [ha, hb]
  cases s
  cases hct : st.canStickyTop <;> cases hcb : st.canStickyBottom <;>
    rcases hrt : st.stickyContentTop with _ | c <;>
    rcases hrb : st.stickyContentBottom with _ | d <;>
    simp_all

theorem placeEdge_of_contains (reg : List Sticky) (st : Sticky) (side : Side)
    (children : List Nat)
    (h : ∀ c, repOf side st = some c → children.contains c = true) :
    placeEdge reg st side children = children := by
  unfold placeEdge
  split
  · rcases hr : repOf side st with _ | c
    · rfl
    · exact addToStickyContainer_of_contains _ _ _ _ _ (h c hr)
  · rfl

theorem contains_insertBeforeGo_of (t x c : Nat) (l : List Nat) (h : l.contains c = true) :
    (insertBeforeGo t x l).contains c = true := by
  induction l with
  | nil => simp at h
  | cons y ys ih =>
    by_cases hyt : y = t
    · simp [insertBeforeGo, hyt]
      simp only [List.contains_cons] at h
      rcases Bool.or_eq_true_iff.1 h with h1 | h2
      · exact Or.inr (Or.inl (by simpa [hyt] using h1))
      · exact Or.inr (Or.inr (by simpa using h2))
    · simp only [List.contains_cons] at h
      rcases Bool.or_eq_true_iff.1 h with h1 | h2
      · simp [insertBeforeGo, hyt]
        exact Or.inl (by simpa using h1)
      · simp [insertBeforeGo, hyt]
        exact Or.inr (by simpa using ih h2)

theorem contains_insertBefore_of (l : List Nat) (x c : Nat) (tgt : Option Nat)
    (h : l.contains c = true) : (insertBefore l x tgt).contains c = true := by
  cases tgt with
  | none => simp [insertBefore]; simp at h; exact Or.inl h
  | some t => exact contains_insertBeforeGo_of t x c l h

theorem contains_addToStickyContainer_of (reg : List Sticky) (st : Sticky) (side : Side)
    (d c : Nat) (children : List Nat) (h : children.contains c = true) :
    (addToStickyContainer reg st side d children).contains c = true := by
  unfold addToStickyContainer
  split
  · simp; simp at h; exact Or.inl h
  · split
    · exact h
    · exact contains_insertBefore_of _ _ _ _ h

theorem contains_placeEdge (reg : List Sticky) (st : Sticky) (side : Side)
    (children : List Nat) (c : Nat) (h : children.contains c = true) :
    (placeEdge reg st side children).contains c = true := by
  unfold placeEdge
  split
  · rcases hr : repOf side st with _ | d
    · exact h
    · exact contains_addToStickyContainer_of _ _ _ _ _ _ h
  · exact h

theorem placeEdge_idem (reg : List Sticky) (st : Sticky) (side : Side) (children : List Nat) :
    placeEdge reg st side (placeEdge reg st side children) = placeEdge reg st side children := by
  cases hcap : (match side with | Side.top => st.canStickyTop | Side.bottom => st.canStickyBottom) with
  | false => simp [placeEdge, hcap]
  | true =>
    rcases hr : repOf side st with _ | c
    · simp [placeEdge, hcap, hr]
    · simp only [placeEdge, hcap, hr, if_true]
      exact addToStickyContainer_of_contains _ _ _ _ _
        (contains_addToStickyContainer_self _ _ _ _ _)

/-- C4: placement is idempotent — when the representation is already a
child of the target container, `_addToStickyContainer` performs no
mutation (it never reorders an element already present), and consequently
calling `sortSticky` twice in succession with no intervening state change
leaves the pane (in particular the containers' children count and order)
exactly as after the first call. -/
theorem placement_idempotent :
    (∀ (reg : List Sticky) (st : Sticky) (side : Side) (c : Nat) (children : List Nat),
        children.contains c = true → addToStickyContainer reg st side c children = children) ∧
    (∀ (s : PaneState) (st : Sticky), sortSticky (sortSticky s st) st = sortSticky s st) := by
  constructor
  · intro reg st side c children h
    exact addToStickyContainer_of_contains reg st side c children h
  · intro s st
    rcases ha : s.stickyAbove with _ | above
    · rw [sortSticky_none_left s st ha, sortSticky_none_left s st ha]
    rcases hb : s.stickyBelow with _ | below
    · rw [sortSticky_none_right s st hb, sortSticky_none_right s st hb]
    rw [sortSticky_some s st above below ha hb]
    rw [sortSticky_some _ st _ _ rfl rfl]
    simp [placeEdge_idem]

/-- C4 witness: one region already placed in a two-child container, and a
double `sortSticky` on a concrete pane. -/
theorem placement_idempotent_witness :
    ([5, 6].contains 5 = true ∧
      addToStickyContainer []
        { id := 1, canStickyTop := true, canStickyBottom := false, distanceFromTop := 4,
          isStickyTop := false, isStickyBottom := false, stickyContentTop := some 5,
          stickyContentBottom := none, nonStickyContent := some 9, offsetHeight := 3,
          contentLoc := Loc.inContent, hasRoot := true } Side.top 5 [5, 6] = [5, 6]) ∧
    sortSticky
        (sortSticky initialPane
          { id := 1, canStickyTop := true, canStickyBottom := false, distanceFromTop := 4,
            isStickyTop := false, isStickyBottom := false, stickyContentTop := some 5,
            stickyContentBottom := none, nonStickyContent := some 9, offsetHeight := 3,
            contentLoc := Loc.inContent, hasRoot := true })
        { id := 1, canStickyTop := true, canStickyBottom := false, distanceFromTop := 4,
          isStickyTop := false, isStickyBottom := false, stickyContentTop := some 5,
          stickyContentBottom := none, nonStickyContent := some 9, offsetHeight := 3,
          contentLoc := Loc.inContent, hasRoot := true }
      = sortSticky initialPane
          { id := 1, canStickyTop := true, canStickyBottom := false, distanceFromTop := 4,
            isStickyTop := false, isStickyBottom := false, stickyContentTop := some 5,
            stickyContentBottom := none, nonStickyContent := some 9, offsetHeight := 3,
            contentLoc := Loc.inContent, hasRoot := true } := by
  refine ⟨⟨by decide, placement_idempotent.1 _ _ _ _ _ (by decide)⟩, placement_idempotent.2 _ _⟩

/-- A sticky region that was never added to the pane, but owns a top
pinned representation (element 99). -/
def neverAddedSticky : Sticky :=
  { id := 9, canStickyTop := true, canStickyBottom := false, distanceFromTop := 0,
    isStickyTop := false, isStickyBottom := false, stickyContentTop := some 99,
    stickyContentBottom := none, nonStickyContent := some 100, offsetHeight := 5,
    contentLoc := Loc.inContent, hasRoot := true }

/-- C2: the claim says `removeSticky` never throws and tolerates a region
whose representations are absent from the containers; but the source
calls DOM `removeChild` unconditionally in `_removeStickyFromContainers`,
and `removeChild` faults with `NotFoundError` when the node is not a
child.  Evaluating the code on a mounted pane and a region that was never
added (top representation non-null, so not a child of the empty top
container) produces the fault instead of a no-op. -/
theorem removeSticky_neverAdded_faults :
    removeSticky initialPane neverAddedSticky = Except.error "NotFoundError" := rfl

/-- Region X: top-capability currently false, but its top representation
(element 41) is a child of the top container (distance 20). -/
def c3RegionX : Sticky :=
  { id := 21, canStickyTop := false, canStickyBottom := false, distanceFromTop := 20,
    isStickyTop := false, isStickyBottom := false, stickyContentTop := some 41,
    stickyContentBottom := none, nonStickyContent := some 51, offsetHeight := 5,
    contentLoc := Loc.inContent, hasRoot := true }

/-- Region Y: top-capable, distance 10, top representation element 42,
being placed into the top container. -/
def c3RegionY : Sticky :=
  { id := 22, canStickyTop := true, canStickyBottom := false, distanceFromTop := 10,
    isStickyTop := false, isStickyBottom := false, stickyContentTop := some 42,
    stickyContentBottom := none, nonStickyContent := some 52, offsetHeight := 5,
    contentLoc := Loc.inContent, hasRoot := true }

/-- C3: the claim (and the source's own comment, "Filter by
canStickyTop/Bottom") say the candidate sibling list keeps only regions
whose own capability flag matches the target edge; the code instead tests
the placed region's flags, so the constant-true predicate admits every
registered region.  With registry `[X, Y]` (X top-incapable, its
representation 41 a child), placing Y (distance 10 < X's 20): the code's
candidate list contains X, so Y is inserted before X's representation —
`[42, 41]` — while the claimed rule yields an empty sibling list and
appends — `[41, 42]`. -/
theorem candidateList_ignoresItemFlags :
    candidateListSorted [c3RegionX, c3RegionY] c3RegionY Side.top [41] = [c3RegionX] ∧
    c3RegionX.canStickyTop = false ∧
    addToStickyContainer [c3RegionX, c3RegionY] c3RegionY Side.top 42 [41] = [42, 41] ∧
    specAddToStickyContainer [c3RegionX, c3RegionY] c3RegionY Side.top 42 [41] = [41, 42] := by
  refine ⟨by decide, by decide, by decide, by decide⟩

/-- C9: pinned-container operations require both container refs non-null
as a conjunction — when either `stickyAbove` or `stickyBelow` is null,
`sortSticky` performs no placement at all (even for the edge whose
container exists), `_checkStickyStatus` performs no reconciliation and
issues no command, and `checkIfMutationIsSticky` returns false for every
record, even one whose target lies inside the container that exists. -/
theorem containerOps_need_both_containers :
    ∀ (s : PaneState) (st : Sticky) (r : MutationRecord),
      s.stickyAbove = none ∨ s.stickyBelow = none →
      sortSticky s st = s ∧ checkStickyStatus s st = (st, []) ∧
        checkIfMutationIsSticky s r = false := by
  intro s st r h
  refine ⟨?_, ?_, ?_⟩
  · rcases h with h | h
    · exact sortSticky_none_left s st h
    · exact sortSticky_none_right s st h
  · rcases h with h | h
    · unfold checkStickyStatus
      rw [h]
    · unfold checkStickyStatus
      rw [h]
      rcases s.stickyAbove with _ | above <;> rfl
  · unfold checkIfMutationIsSticky
    rcases h with h | h <;> simp [h]

/-- C9 witness: the bottom container exists and the record's target lies
inside it, yet the classification is still false because the top
container ref is null. -/
theorem containerOps_need_both_containers_witness :
    ((({ stickies := [], stickyAbove := none, stickyBelow := some [7],
         contentContainer := true, stickyTopHeight := 0,
         stickyBottomHeight := 0 } : PaneState).stickyAbove = none ∨
      ({ stickies := [], stickyAbove := none, stickyBelow := some [7],
         contentContainer := true, stickyTopHeight := 0,
         stickyBottomHeight := 0 } : PaneState).stickyBelow = none) ∧
     sortSticky
        { stickies := [], stickyAbove := none, stickyBelow := some [7],
          contentContainer := true, stickyTopHeight := 0, stickyBottomHeight := 0 }
        neverAddedSticky
      = { stickies := [], stickyAbove := none, stickyBelow := some [7],
          contentContainer := true, stickyTopHeight := 0, stickyBottomHeight := 0 }) ∧
    checkIfMutationIsSticky
        { stickies := [], stickyAbove := none, stickyBelow := some [7],
          contentContainer := true, stickyTopHeight := 0, stickyBottomHeight := 0 }
        { inAbove := false, inBelow := true, inRootOf := fun _ => false } = false := by
  refine ⟨⟨Or.inl rfl, ?_⟩, ?_⟩
  · exact (containerOps_need_both_containers _ neverAddedSticky
      { inAbove := false, inBelow := true, inRootOf := fun _ => false } (Or.inl rfl)).1
  · exact (containerOps_need_both_containers _ neverAddedSticky
      { inAbove := false, inBelow := true, inRootOf := fun _ => false } (Or.inl rfl)).2.2

/-- C8: for a (non-empty) batch of mutation records on a mounted pane,
the handler first performs a broadcast, then takes exactly one of two
mutually exclusive actions: if any record's target lies within either
pinned container it recomputes the heights, otherwise it force-updates
exactly those registered regions whose root node contains the first
record's target — only the first record drives this content-affecting
classification. -/
theorem handleMutation_spec :
    ∀ (s : PaneState) (records : List MutationRecord) (r0 : MutationRecord),
      s.contentContainer = true → records.head? = some r0 →
      ∃ s' acts, handleMutation s records = some (s', acts) ∧
        acts.head? = some PaneAction.broadcast ∧
        (records.any (fun r => checkIfMutationIsSticky s r) = true →
          s' = updateStickyRefHeights s ∧
          acts = [PaneAction.broadcast, PaneAction.updateHeights]) ∧
        (records.any (fun r => checkIfMutationIsSticky s r) = false →
          s' = s ∧ PaneAction.updateHeights ∉ acts ∧
          ∀ i, PaneAction.forceUpdate i ∈ acts ↔
            ∃ st ∈ s.stickies, st.id = i ∧ st.hasRoot = true ∧ r0.inRootOf i = true) := by
  intro s records r0 hc hh
  cases hany : records.any (fun r => checkIfMutationIsSticky s r) with
  | true =>
    refine ⟨updateStickyRefHeights s, [PaneAction.broadcast, PaneAction.updateHeights],
      ?_, rfl, fun _ => ⟨rfl, rfl⟩, fun hfalse => by simp at hfalse⟩
    unfold handleMutation
    simp [hany, hc]
  | false =>
    refine ⟨s, PaneAction.broadcast ::
        (s.stickies.filter (fun st => st.hasRoot && r0.inRootOf st.id)).map
          (fun st => PaneAction.forceUpdate st.id),
      ?_, rfl, fun htrue => by simp at htrue, fun _ => ⟨rfl, ?_, ?_⟩⟩
    · unfold handleMutation
      simp [hany, hc, hh]
    · simp [List.mem_map]
    · intro i
      simp only [List.mem_cons, List.mem_map, List.mem_filter]
      constructor
      · rintro (h | ⟨st, ⟨hmem, hflags⟩, heq⟩)
        · simp at h
        · simp only [Bool.and_eq_true] at hflags
          have hid : st.id = i := by
            simpa using heq
          exact ⟨st, hmem, hid, hflags.1, hid ▸ hflags.2⟩
      · rintro ⟨st, hmem, hid, hroot, hin⟩
        refine Or.inr ⟨st, ⟨hmem, ?_⟩, by simp [hid]⟩
        rw [Bool.and_eq_true]
        exact ⟨hroot, by rw [hid]; exact hin⟩

/-- C8 witness: a pane with one region whose root contains the target of
the only (content-affecting) record. -/
theorem handleMutation_spec_witness :
    ∃ s' acts,
      handleMutation
          { stickies := [{ id := 1, canStickyTop := true, canStickyBottom := false,
                           distanceFromTop := 0, isStickyTop := false, isStickyBottom := false,
                           stickyContentTop := some 5, stickyContentBottom := none,
                           nonStickyContent := some 6, offsetHeight := 2,
                           contentLoc := Loc.inContent, hasRoot := true }],
            stickyAbove := some [], stickyBelow := some [], contentContainer := true,
            stickyTopHeight := 0, stickyBottomHeight := 0 }
          [{ inAbove := false, inBelow := false, inRootOf := fun i => i == 1 }]
        = some (s', acts) ∧
      acts.head? = some PaneAction.broadcast := by
  obtain ⟨s', acts, h1, h2, _, _⟩ := handleMutation_spec
    { stickies := [{ id := 1, canStickyTop := true, canStickyBottom := false,
                     distanceFromTop := 0, isStickyTop := false, isStickyBottom := false,
                     stickyContentTop := some 5, stickyContentBottom := none,
                     nonStickyContent := some 6, offsetHeight := 2,
                     contentLoc := Loc.inContent, hasRoot := true }],
      stickyAbove := some [], stickyBelow := some [], contentContainer := true,
      stickyTopHeight := 0, stickyBottomHeight := 0 }
    [{ inAbove := false, inBelow := false, inRootOf := fun i => i == 1 }]
    { inAbove := false, inBelow := false, inRootOf := fun i => i == 1 } rfl rfl
  exact ⟨s', acts, h1, h2⟩

/-- Sticky-level effect of `checkTopEdge` (first component). -/
def tApp (above : List Nat) (x : Sticky) : Sticky :=
  if x.isStickyTop = true ∧ containsContent above x = false then
    match x.stickyContentTop with
    | some rep => stickyAddSticky x rep
    | none => x
  else x

/-- Sticky-level effect of `checkBottomEdge` (first component). -/
def bApp (below : List Nat) (y : Sticky) : Sticky :=
  if y.isStickyBottom = true ∧ containsContent below y = false then
    match y.stickyContentBottom with
    | some rep => stickyAddSticky y rep
    | none => y
  else y

theorem checkTopEdge_fst (above : List Nat) (x : Sticky) :
    (checkTopEdge above x).1 = tApp above x := by
  unfold checkTopEdge tApp
  split
  · split <;> rfl
  · rfl

theorem checkBottomEdge_fst (below : List Nat) (p : Sticky × List StickyCmd) :
    (checkBottomEdge below p).1 = bApp below p.1 := by
  unfold checkBottomEdge bApp
  split
  · split <;> rfl
  · rfl

theorem stickyAddSticky_top (x : Sticky) (r : Nat) (h : x.stickyContentTop = some r) :
    stickyAddSticky x r = { x with contentLoc := Loc.inTopRep } := by
  unfold stickyAddSticky
  simp [h]

theorem stickyAddSticky_bot (x : Sticky) (r : Nat) (h1 : ¬ x.stickyContentTop = some r)
    (h2 : x.stickyContentBottom = some r) :
    stickyAddSticky x r = { x with contentLoc := Loc.inBottomRep } := by
  unfold stickyAddSticky
  simp [h1, h2]

theorem withLoc_eq_self (x : Sticky) (l : Loc) :
    ({ x with contentLoc := l } = x) ↔ x.contentLoc = l := by
  constructor
  · intro h
    exact (congrArg Sticky.contentLoc h).symm ▸ rfl
  · intro h
    cases x
    simp_all



theorem containsContent_inTop (children : List Nat) (x : Sticky) (rt : Nat)
    (hl : x.contentLoc = Loc.inTopRep) (hr : x.stickyContentTop = some rt) :
    containsContent children x = children.contains rt := by
  unfold containsContent
  rw [hl, hr]

theorem containsContent_inBottom (children : List Nat) (x : Sticky) (rb : Nat)
    (hl : x.contentLoc = Loc.inBottomRep) (hr : x.stickyContentBottom = some rb) :
    containsContent children x = children.contains rb := by
  unfold containsContent
  rw [hl, hr]

theorem containsContent_inContent (children : List Nat) (x : Sticky)
    (hl : x.contentLoc = Loc.inContent) : containsContent children x = false := by
  unfold containsContent
  rw [hl]

theorem containsContent_detached (children : List Nat) (x : Sticky)
    (hl : x.contentLoc = Loc.detached) : containsContent children x = false := by
  unfold containsContent
  rw [hl]

theorem tApp_eq_of_not_guard (above : List Nat) (x : Sticky)
    (h : ¬(x.isStickyTop = true ∧ containsContent above x = false)) : tApp above x = x := by
  unfold tApp
  simp [h]

theorem tApp_eq_of_none (above : List Nat) (x : Sticky)
    (h : x.stickyContentTop = none) : tApp above x = x := by
  unfold tApp
  rw [h]
  split <;> rfl

theorem tApp_eq_fire (above : List Nat) (x : Sticky) (rt : Nat)
    (hg1 : x.isStickyTop = true) (hg2 : containsContent above x = false)
    (hr : x.stickyContentTop = some rt) :
    tApp above x = { x with contentLoc := Loc.inTopRep } := by
  unfold tApp
  rw [if_pos ⟨hg1, hg2⟩]
  have hm : (match x.stickyContentTop with
      | some rep => stickyAddSticky x rep
      | none => x) = stickyAddSticky x rt := by
    rw [hr]
  rw [hm]
  exact stickyAddSticky_top x rt hr

theorem bApp_eq_of_not_guard (below : List Nat) (y : Sticky)
    (h : ¬(y.isStickyBottom = true ∧ containsContent below y = false)) : bApp below y = y := by
  unfold bApp
  simp [h]

theorem bApp_eq_of_none (below : List Nat) (y : Sticky)
    (h : y.stickyContentBottom = none) : bApp below y = y := by
  unfold bApp
  rw [h]
  split <;> rfl

theorem bApp_eq_fire_topmatch (below : List Nat) (y : Sticky) (rb : Nat)
    (hg1 : y.isStickyBottom = true) (hg2 : containsContent below y = false)
    (hb : y.stickyContentBottom = some rb) (ht : y.stickyContentTop = some rb) :
    bApp below y = { y with contentLoc := Loc.inTopRep } := by
  unfold bApp
  rw [if_pos ⟨hg1, hg2⟩]
  have hm : (match y.stickyContentBottom with
      | some rep => stickyAddSticky y rep
      | none => y) = stickyAddSticky y rb := by
    rw [hb]
  rw [hm]
  exact stickyAddSticky_top y rb ht

theorem bApp_eq_fire (below : List Nat) (y : Sticky) (rb : Nat)
    (hg1 : y.isStickyBottom = true) (hg2 : containsContent below y = false)
    (hb : y.stickyContentBottom = some rb) (ht : ¬ y.stickyContentTop = some rb) :
    bApp below y = { y with contentLoc := Loc.inBottomRep } := by
  unfold bApp
  rw [if_pos ⟨hg1, hg2⟩]
  have hm : (match y.stickyContentBottom with
      | some rep => stickyAddSticky y rep
      | none => y) = stickyAddSticky y rb := by
    rw [hb]
  rw [hm]
  exact stickyAddSticky_bot y rb ht hb

theorem tApp_total (above : List Nat) (x : Sticky) :
    (∃ rt, x.stickyContentTop = some rt ∧ x.isStickyTop = true ∧
      containsContent above x = false ∧ tApp above x = { x with contentLoc := Loc.inTopRep }) ∨
    (tApp above x = x ∧
      (¬(x.isStickyTop = true ∧ containsContent above x = false) ∨ x.stickyContentTop = none)) := by
  by_cases hg : x.isStickyTop = true ∧ containsContent above x = false
  · rcases Option.eq_none_or_eq_some x.stickyContentTop with hr | ⟨rt, hr⟩
    · exact Or.inr ⟨tApp_eq_of_none above x hr, Or.inr hr⟩
    · exact Or.inl ⟨rt, hr, hg.1, hg.2, tApp_eq_fire above x rt hg.1 hg.2 hr⟩
  · exact Or.inr ⟨tApp_eq_of_not_guard above x hg, Or.inl hg⟩

theorem bApp_total (below : List Nat) (y : Sticky) :
    (∃ rb, y.stickyContentBottom = some rb ∧ y.isStickyBottom = true ∧
      containsContent below y = false ∧
      ((y.stickyContentTop = some rb ∧ bApp below y = { y with contentLoc := Loc.inTopRep }) ∨
       (¬ y.stickyContentTop = some rb ∧ bApp below y = { y with contentLoc := Loc.inBottomRep }))) ∨
    (bApp below y = y ∧
      (¬(y.isStickyBottom = true ∧ containsContent below y = false) ∨
        y.stickyContentBottom = none)) := by
  by_cases hg : y.isStickyBottom = true ∧ containsContent below y = false
  · rcases Option.eq_none_or_eq_some y.stickyContentBottom with hr | ⟨rb, hr⟩
    · exact Or.inr ⟨bApp_eq_of_none below y hr, Or.inr hr⟩
    · by_cases ht : y.stickyContentTop = some rb
      · exact Or.inl ⟨rb, hr, hg.1, hg.2,
          Or.inl ⟨ht, bApp_eq_fire_topmatch below y rb hg.1 hg.2 hr ht⟩⟩
      · exact Or.inl ⟨rb, hr, hg.1, hg.2,
          Or.inr ⟨ht, bApp_eq_fire below y rb hg.1 hg.2 hr ht⟩⟩
  · exact Or.inr ⟨bApp_eq_of_not_guard below y hg, Or.inl hg⟩

theorem tApp_idem (above : List Nat) (x : Sticky) :
    tApp above (tApp above x) = tApp above x := by
  rcases tApp_total above x with ⟨rt, hr, hg1, hg2, hfire⟩ | ⟨hid, _⟩
  · rw [hfire]
    by_cases hmem : above.contains rt = true
    · apply tApp_eq_of_not_guard
      rw [containsContent_inTop above { x with contentLoc := Loc.inTopRep } rt rfl hr]
      exact fun hcontra => by rw [hmem] at hcontra; exact Bool.noConfusion hcontra.2
    · rw [tApp_eq_fire above { x with contentLoc := Loc.inTopRep } rt hg1 ?_ hr]
      · rw [containsContent_inTop above { x with contentLoc := Loc.inTopRep } rt rfl hr]
        simpa using hmem
  · rw [hid, hid]

theorem bApp_idem (below : List Nat) (y : Sticky) :
    bApp below (bApp below y) = bApp below y := by
  rcases bApp_total below y with ⟨rb, hr, hg1, hg2, hsh⟩ | ⟨hid, _⟩
  · rcases hsh with ⟨ht, hfire⟩ | ⟨ht, hfire⟩
    · rw [hfire]
      by_cases hmem : below.contains rb = true
      · apply bApp_eq_of_not_guard
        rw [containsContent_inTop below { y with contentLoc := Loc.inTopRep } rb rfl ht]
        exact fun hcontra => by rw [hmem] at hcontra; exact Bool.noConfusion hcontra.2
      · rw [bApp_eq_fire_topmatch below { y with contentLoc := Loc.inTopRep } rb hg1 ?_ hr ht]
        · rw [containsContent_inTop below { y with contentLoc := Loc.inTopRep } rb rfl ht]
          simpa using hmem
    · rw [hfire]
      by_cases hmem : below.contains rb = true
      · apply bApp_eq_of_not_guard
        rw [containsContent_inBottom below { y with contentLoc := Loc.inBottomRep } rb rfl hr]
        exact fun hcontra => by rw [hmem] at hcontra; exact Bool.noConfusion hcontra.2
      · rw [bApp_eq_fire below { y with contentLoc := Loc.inBottomRep } rb hg1 ?_ hr ht]
        · rw [containsContent_inBottom below { y with contentLoc := Loc.inBottomRep } rb rfl hr]
          simpa using hmem
  · rw [hid, hid]

theorem tApp_ne_cases (above : List Nat) (z : Sticky) (h : ¬ tApp above z = z) :
    z.isStickyTop = true ∧ containsContent above z = false ∧
      ∃ rt, z.stickyContentTop = some rt ∧ ¬ z.contentLoc = Loc.inTopRep ∧
        tApp above z = { z with contentLoc := Loc.inTopRep } := by
  rcases tApp_total above z with ⟨rt, hr, hg1, hg2, hfire⟩ | ⟨hid, _⟩
  · refine ⟨hg1, hg2, rt, hr, ?_, hfire⟩
    intro hl
    exact h (hfire.trans ((withLoc_eq_self z Loc.inTopRep).2 hl))
  · exact absurd hid h

theorem bApp_ne_cases (below : List Nat) (y : Sticky) (h : ¬ bApp below y = y) :
    y.isStickyBottom = true ∧ containsContent below y = false ∧
      ∃ rb, y.stickyContentBottom = some rb ∧
        ((y.stickyContentTop = some rb ∧ ¬ y.contentLoc = Loc.inTopRep ∧
            bApp below y = { y with contentLoc := Loc.inTopRep }) ∨
         (¬ y.stickyContentTop = some rb ∧ ¬ y.contentLoc = Loc.inBottomRep ∧
            bApp below y = { y with contentLoc := Loc.inBottomRep })) := by
  rcases bApp_total below y with ⟨rb, hr, hg1, hg2, hsh⟩ | ⟨hid, _⟩
  · refine ⟨hg1, hg2, rb, hr, ?_⟩
    rcases hsh with ⟨ht, hfire⟩ | ⟨ht, hfire⟩
    · refine Or.inl ⟨ht, ?_, hfire⟩
      intro hl
      exact h (hfire.trans ((withLoc_eq_self y Loc.inTopRep).2 hl))
    · refine Or.inr ⟨ht, ?_, hfire⟩
      intro hl
      exact h (hfire.trans ((withLoc_eq_self y Loc.inBottomRep).2 hl))
  · exact absurd hid h

theorem checkEdges_idem (above below : List Nat) (x : Sticky) :
    bApp below (tApp above (bApp below (tApp above x)))
      = bApp below (tApp above x) := by
  by_cases htz : tApp above (bApp below (tApp above x)) = bApp below (tApp above x)
  · rw [htz]
    exact bApp_idem below (tApp above x)
  · obtain ⟨hit, hca, rt, hrt, hlocne, hfire⟩ := tApp_ne_cases above _ htz
    by_cases hby : bApp below (tApp above x) = tApp above x
    · exfalso
      apply htz
      rw [hby]
      exact tApp_idem above x
    · obtain ⟨hib, hcb, rb, hrb, hshape⟩ := bApp_ne_cases below _ hby
      rcases hshape with ⟨htb, _, hzeq⟩ | ⟨htb, hlocb, hzeq⟩
      · exfalso
        apply hlocne
        rw [hzeq]
      · have hyt : (tApp above x).stickyContentTop = some rt := by
          have : (bApp below (tApp above x)).stickyContentTop
              = (tApp above x).stickyContentTop := by
            rw [hzeq]
          rw [← this]
          exact hrt
        have hyloc : (tApp above x).contentLoc = Loc.inTopRep := by
          rcases tApp_total above x with ⟨rt', hr', hg1', hg2', hfire'⟩ | ⟨hid, hside⟩
          · rw [hfire']
          · rcases hside with hng | hnone
            · have hxit : x.isStickyTop = true := by
                have h1 : (bApp below (tApp above x)).isStickyTop
                    = (tApp above x).isStickyTop := by
                  rw [hzeq]
                rw [h1, hid] at hit
                exact hit
              have hcc : ¬ containsContent above x = false := fun hf => hng ⟨hxit, hf⟩
              rcases hLoc : x.contentLoc with _ | _ | _ | _
              · rw [hid]
                exact hLoc
              · exfalso
                apply hlocb
                rw [hid]
                exact hLoc
              · exact absurd (containsContent_inContent above x hLoc) hcc
              · exact absurd (containsContent_detached above x hLoc) hcc
            · rw [hid] at hyt
              rw [hyt] at hnone
              exact Option.noConfusion hnone
        have hw : tApp above (bApp below (tApp above x)) = tApp above x := by
          rw [hfire, hzeq]
          exact (withLoc_eq_self (tApp above x) Loc.inTopRep).2 hyloc
        rw [hw]

theorem tApp_proj (above : List Nat) (x : Sticky) :
    (tApp above x).isStickyTop = x.isStickyTop ∧
    (tApp above x).isStickyBottom = x.isStickyBottom ∧
    (tApp above x).nonStickyContent = x.nonStickyContent := by
  rcases tApp_total above x with ⟨rt, _, _, _, hfire⟩ | ⟨hid, _⟩
  · rw [hfire]
    exact ⟨rfl, rfl, rfl⟩
  · rw [hid]
    exact ⟨rfl, rfl, rfl⟩

theorem bApp_proj (below : List Nat) (y : Sticky) :
    (bApp below y).isStickyTop = y.isStickyTop ∧
    (bApp below y).isStickyBottom = y.isStickyBottom ∧
    (bApp below y).nonStickyContent = y.nonStickyContent := by
  rcases bApp_total below y with ⟨rb, _, _, _, hsh⟩ | ⟨hid, _⟩
  · rcases hsh with ⟨_, hfire⟩ | ⟨_, hfire⟩ <;> rw [hfire] <;> exact ⟨rfl, rfl, rfl⟩
  · rw [hid]
    exact ⟨rfl, rfl, rfl⟩

theorem checkStickyStatus_unfold_some (s : PaneState) (st : Sticky) (above below : List Nat)
    (ha : s.stickyAbove = some above) (hb : s.stickyBelow = some below) :
    checkStickyStatus s st =
      if s.contentContainer = true ∧ st.nonStickyContent.isSome = true then
        if (st.isStickyTop || st.isStickyBottom) = true then
          checkBottomEdge below (checkTopEdge above st)
        else
          if st.contentLoc = Loc.inContent then (st, [])
          else (stickyResetSticky st, [StickyCmd.resetCmd])
      else (st, []) := by
  unfold checkStickyStatus
  rw [ha, hb]

theorem checkStickyStatus_none (s : PaneState) (st : Sticky)
    (h : s.stickyAbove = none ∨ s.stickyBelow = none) :
    checkStickyStatus s st = (st, []) := by
  unfold checkStickyStatus
  rcases h with h | h
  · rw [h]
  · rw [h]
    rcases s.stickyAbove with _ | a <;> rfl

theorem checkStickyStatus_fst_idem (s : PaneState) (st : Sticky) :
    (checkStickyStatus s (checkStickyStatus s st).1).1 = (checkStickyStatus s st).1 := by
  rcases hao : s.stickyAbove with _ | above
  · have h1 : ∀ u, checkStickyStatus s u = (u, []) :=
      fun u => checkStickyStatus_none s u (Or.inl hao)
    simp [h1]
  rcases hbo : s.stickyBelow with _ | below
  · have h1 : ∀ u, checkStickyStatus s u = (u, []) :=
      fun u => checkStickyStatus_none s u (Or.inr hbo)
    simp [h1]
  by_cases hg : s.contentContainer = true ∧ st.nonStickyContent.isSome = true
  · cases hf : (st.isStickyTop || st.isStickyBottom) with
    | true =>
      have h1 : (checkStickyStatus s st).1 = bApp below (tApp above st) := by
        rw [checkStickyStatus_unfold_some s st above below hao hbo, if_pos hg, if_pos hf]
        rw [checkBottomEdge_fst, checkTopEdge_fst]
      have hg' : s.contentContainer = true ∧
          (bApp below (tApp above st)).nonStickyContent.isSome = true := by
        refine ⟨hg.1, ?_⟩
        rw [(bApp_proj below (tApp above st)).2.2, (tApp_proj above st).2.2]
        exact hg.2
      have hf' : ((bApp below (tApp above st)).isStickyTop ||
          (bApp below (tApp above st)).isStickyBottom) = true := by
        rw [(bApp_proj below (tApp above st)).1, (tApp_proj above st).1,
          (bApp_proj below (tApp above st)).2.1, (tApp_proj above st).2.1]
        exact hf
      rw [h1]
      rw [checkStickyStatus_unfold_some s _ above below hao hbo, if_pos hg', if_pos hf']
      rw [checkBottomEdge_fst, checkTopEdge_fst]
      exact checkEdges_idem above below st
    | false =>
      by_cases hloc : st.contentLoc = Loc.inContent
      · have h1 : checkStickyStatus s st = (st, []) := by
          rw [checkStickyStatus_unfold_some s st above below hao hbo, if_pos hg,
            if_neg (by simp [hf]), if_pos hloc]
        simp [h1]
      · have hff : st.isStickyTop = false ∧ st.isStickyBottom = false := by
          cases hx : st.isStickyTop <;> cases hy : st.isStickyBottom <;> simp_all
        have h1 : checkStickyStatus s st = (stickyResetSticky st, [StickyCmd.resetCmd]) := by
          rw [checkStickyStatus_unfold_some s st above below hao hbo, if_pos hg,
            if_neg (by simp [hf]), if_neg hloc]
        have hg2 : s.contentContainer = true ∧
            (stickyResetSticky st).nonStickyContent.isSome = true := hg
        have h2 : checkStickyStatus s (stickyResetSticky st) = (stickyResetSticky st, []) := by
          rw [checkStickyStatus_unfold_some s _ above below hao hbo, if_pos hg2,
            if_neg (by simp [stickyResetSticky, hff.1, hff.2] :
              ¬ ((stickyResetSticky st).isStickyTop ||
                (stickyResetSticky st).isStickyBottom) = true),
            if_pos (show (stickyResetSticky st).contentLoc = Loc.inContent from rfl)]
        rw [h1, h2]
  · have h1 : checkStickyStatus s st = (st, []) := by
      rw [checkStickyStatus_unfold_some s st above below hao hbo, if_neg hg]
    simp [h1]

theorem checkTopEdge_fire_eq (above : List Nat) (st : Sticky) (rt : Nat)
    (hg1 : st.isStickyTop = true) (hg2 : containsContent above st = false)
    (hr : st.stickyContentTop = some rt) :
    checkTopEdge above st = (stickyAddSticky st rt, [StickyCmd.addCmd rt]) := by
  unfold checkTopEdge
  rw [if_pos ⟨hg1, hg2⟩]
  have hm : (match st.stickyContentTop with
      | some rep => (stickyAddSticky st rep, [StickyCmd.addCmd rep])
      | none => (st, ([] : List StickyCmd)))
      = (stickyAddSticky st rt, [StickyCmd.addCmd rt]) := by
    rw [hr]
  exact hm

theorem checkTopEdge_eq_self (above : List Nat) (st : Sticky)
    (h : ¬(st.isStickyTop = true ∧ containsContent above st = false)) :
    checkTopEdge above st = (st, []) := by
  unfold checkTopEdge
  rw [if_neg h]

theorem checkBottomEdge_eq_self (below : List Nat) (p : Sticky × List StickyCmd)
    (h : ¬(p.1.isStickyBottom = true ∧ containsContent below p.1 = false)) :
    checkBottomEdge below p = p := by
  unfold checkBottomEdge
  rw [if_neg h]

theorem checkBottomEdge_fire_eq (below : List Nat) (p : Sticky × List StickyCmd) (rb : Nat)
    (hg1 : p.1.isStickyBottom = true) (hg2 : containsContent below p.1 = false)
    (hr : p.1.stickyContentBottom = some rb) :
    checkBottomEdge below p = (stickyAddSticky p.1 rb, p.2 ++ [StickyCmd.addCmd rb]) := by
  unfold checkBottomEdge
  rw [if_pos ⟨hg1, hg2⟩]
  have hm : (match p.1.stickyContentBottom with
      | some rep => (stickyAddSticky p.1 rep, p.2 ++ [StickyCmd.addCmd rep])
      | none => p)
      = (stickyAddSticky p.1 rb, p.2 ++ [StickyCmd.addCmd rb]) := by
    rw [hr]
  exact hm

theorem checkBottomEdge_cmds_mono (below : List Nat) (p : Sticky × List StickyCmd)
    (c : StickyCmd) (hc : c ∈ p.2) : c ∈ (checkBottomEdge below p).2 := by
  unfold checkBottomEdge
  split
  · split
    · exact List.mem_append_left _ hc
    · exact hc
  · exact hc

/-- C7 (amended): the reconciliation check's guard tests containment of
the region's normal-flow content node, not childhood of the pinned
representation: given a mounted pane and a region with a content node,
(1) if the region reports pinned-top, the top container does not contain
its content node, and its top representation exists, the check issues the
region's `addSticky` with that representation (which relocates the
content node into it); (2) if the top container already contains the
content node (and the region is not pinned-bottom), no command is issued;
(3) symmetrically for pinned-bottom when not pinned-top; (4) if both
flags are false and the content node is not inside the content container,
`resetSticky` is issued; (5) if both flags are false and the content node
is in the content container, nothing happens; and (6) running the check
twice with no intervening state change has no additional effect on the
region. -/
theorem checkStickyStatus_spec :
    ∀ (s : PaneState) (st : Sticky) (above below : List Nat),
      s.stickyAbove = some above → s.stickyBelow = some below →
      s.contentContainer = true → st.nonStickyContent.isSome = true →
      ((∀ rt, st.isStickyTop = true → containsContent above st = false →
          st.stickyContentTop = some rt →
          StickyCmd.addCmd rt ∈ (checkStickyStatus s st).2) ∧
       (st.isStickyTop = true → containsContent above st = true → st.isStickyBottom = false →
          checkStickyStatus s st = (st, [])) ∧
       (∀ rb, st.isStickyTop = false → st.isStickyBottom = true →
          containsContent below st = false → st.stickyContentBottom = some rb →
          StickyCmd.addCmd rb ∈ (checkStickyStatus s st).2) ∧
       (st.isStickyTop = false → st.isStickyBottom = false → ¬ st.contentLoc = Loc.inContent →
          checkStickyStatus s st = (stickyResetSticky st, [StickyCmd.resetCmd])) ∧
       (st.isStickyTop = false → st.isStickyBottom = false → st.contentLoc = Loc.inContent →
          checkStickyStatus s st = (st, [])) ∧
       (checkStickyStatus s (checkStickyStatus s st).1).1 = (checkStickyStatus s st).1) := by
  intro s st above below ha hb hc hn
  refine ⟨?_, ?_, ?_, ?_, ?_, checkStickyStatus_fst_idem s st⟩
  · intro rt hit hca hrt
    rw [checkStickyStatus_unfold_some s st above below ha hb, if_pos ⟨hc, hn⟩,
      if_pos (by simp [hit]), checkTopEdge_fire_eq above st rt hit hca hrt]
    exact checkBottomEdge_cmds_mono below _ _ (by simp)
  · intro hit hca hib
    rw [checkStickyStatus_unfold_some s st above below ha hb, if_pos ⟨hc, hn⟩,
      if_pos (by simp [hit]),
      checkTopEdge_eq_self above st (by simp [hca]),
      checkBottomEdge_eq_self below _ (by simp [hib])]
  · intro rb hit hib hcb hrb
    rw [checkStickyStatus_unfold_some s st above below ha hb, if_pos ⟨hc, hn⟩,
      if_pos (by simp [hib]),
      checkTopEdge_eq_self above st (by simp [hit]),
      checkBottomEdge_fire_eq below (st, []) rb hib hcb hrb]
    simp
  · intro hit hib hloc
    rw [checkStickyStatus_unfold_some s st above below ha hb, if_pos ⟨hc, hn⟩,
      if_neg (by simp [hit, hib]), if_neg hloc]
  · intro hit hib hloc
    rw [checkStickyStatus_unfold_some s st above below ha hb, if_pos ⟨hc, hn⟩,
      if_neg (by simp [hit, hib]), if_pos hloc]

def c7Pane : PaneState :=
  { stickies := [], stickyAbove := some [61], stickyBelow := some [],
    contentContainer := true, stickyTopHeight := 0, stickyBottomHeight := 0 }

def c7Region : Sticky :=
  { id := 31, canStickyTop := true, canStickyBottom := false, distanceFromTop := 0,
    isStickyTop := true, isStickyBottom := false, stickyContentTop := some 61,
    stickyContentBottom := none, nonStickyContent := some 71, offsetHeight := 5,
    contentLoc := Loc.inContent, hasRoot := true }

/-- C7 counterexample: the claim keys the top placement on the pinned
representation not yet being a child of the top container; here the
representation (element 61) IS already a child, the region reports
pinned-top, yet the check still issues `addSticky` — because the source
guard is `!this.stickyAbove.contains(sticky.nonStickyContent)`, about the
normal-flow content node (element 71, currently in normal flow), not the
representation. -/
theorem checkStickyStatus_fires_despite_rep_child :
    ((c7Pane.stickyAbove = some [61] ∧ c7Region.stickyContentTop = some 61) ∧
      c7Region.isStickyTop = true) ∧
    (checkStickyStatus c7Pane c7Region).2 = [StickyCmd.addCmd 61] := by
  refine ⟨⟨⟨rfl, rfl⟩, rfl⟩, ?_⟩
  decide

/-- C7 witness: a pinned-top region whose content is in normal flow and
whose top representation is absent from the (empty) top container
receives the `addSticky` command. -/
theorem checkStickyStatus_spec_probe :
    StickyCmd.addCmd 3 ∈ (checkStickyStatus
        { stickies := [], stickyAbove := some [], stickyBelow := some [],
          contentContainer := true, stickyTopHeight := 0, stickyBottomHeight := 0 }
        { id := 1, canStickyTop := true, canStickyBottom := false, distanceFromTop := 0,
          isStickyTop := true, isStickyBottom := false, stickyContentTop := some 3,
          stickyContentBottom := none, nonStickyContent := some 4, offsetHeight := 2,
          contentLoc := Loc.inContent, hasRoot := true }).2 := by
  exact (checkStickyStatus_spec
    { stickies := [], stickyAbove := some [], stickyBelow := some [],
      contentContainer := true, stickyTopHeight := 0, stickyBottomHeight := 0 }
    { id := 1, canStickyTop := true, canStickyBottom := false, distanceFromTop := 0,
      isStickyTop := true, isStickyBottom := false, stickyContentTop := some 3,
      stickyContentBottom := none, nonStickyContent := some 4, offsetHeight := 2,
      contentLoc := Loc.inContent, hasRoot := true }
    [] [] rfl rfl rfl rfl).1 3 rfl (by decide) rfl

/-- Disjointness of one (optional) representation node from both of
another region's representation nodes. -/
def apartFrom (o : Option Nat) (st : Sticky) : Bool :=
  match o with
  | some x => !(st.stickyContentTop == some x) && !(st.stickyContentBottom == some x)
  | none => true

/-- Two distinct Sticky objects: distinct identities and disjoint
representation nodes (in the browser, distinct component instances own
distinct DOM nodes). -/
def StickyApart (a b : Sticky) : Prop :=
  a.id ≠ b.id ∧ apartFrom a.stickyContentTop b = true ∧ apartFrom a.stickyContentBottom b = true

/-- Comparison of two element ids by the `distanceFromTop` of their owning
regions: every registered owner of `a` is at most as far from the top as
every registered owner of `b`. -/
def ownerLe (reg : List Sticky) (side : Side) (a b : Nat) : Prop :=
  ∀ s1 ∈ reg, ∀ s2 ∈ reg, repOf side s1 = some a → repOf side s2 = some b →
    s1.distanceFromTop ≤ s2.distanceFromTop

/-- A container's children appear in non-decreasing order of their owning
regions' `distanceFromTop`. -/
def SortedChildren (reg : List Sticky) (side : Side) (children : List Nat) : Prop :=
  children.Pairwise (ownerLe reg side)

/-- The region `st` is registered and owns child `e` on the given edge. -/
def ownsRep (reg : List Sticky) (side : Side) (st : Sticky) (e : Nat) : Prop :=
  st ∈ reg ∧ repOf side st = some e

def distLt (a b : Sticky) : Prop := a.distanceFromTop < b.distanceFromTop

def distLe (a b : Sticky) : Prop := a.distanceFromTop ≤ b.distanceFromTop

def distNe (a b : Sticky) : Prop := a.distanceFromTop ≠ b.distanceFromTop

/-- A container is well-formed: its children are exactly the
representations of a strictly distance-sorted list of registered owners. -/
def ContOK (reg : List Sticky) (side : Side) (children : List Nat) : Prop :=
  ∃ ow : List Sticky, List.Forall₂ (ownsRep reg side) ow children ∧ ow.Pairwise distLt

/-- Two Sticky values agreeing on identity, measured distance and both
representation nodes (the fields the ordering invariants read). -/
def sameKey (a b : Sticky) : Prop :=
  a.id = b.id ∧ a.distanceFromTop = b.distanceFromTop ∧
    a.stickyContentTop = b.stickyContentTop ∧ a.stickyContentBottom = b.stickyContentBottom

/-- States reachable from the freshly mounted pane by the public
operations.  `allowFlags` enables external capability/pin-state changes;
`strictDist` additionally requires every added region's measured distance
to differ from all registered ones.  Region arguments carry the freshness
side conditions that hold of real JavaScript objects (distinct objects,
distinct DOM nodes); an operation that faults (`removeChild` on a
non-child) produces no state. -/
inductive Reach (allowFlags strictDist : Bool) : PaneState → Prop where
  | init : Reach allowFlags strictDist initialPane
  | addFresh (s : PaneState) (st : Sticky) :
      Reach allowFlags strictDist s →
      (∀ old ∈ s.stickies, StickyApart old st) →
      (strictDist = true → ∀ old ∈ s.stickies, old.distanceFromTop ≠ st.distanceFromTop) →
      Reach allowFlags strictDist (addSticky s st)
  | reAdd (s : PaneState) (st : Sticky) :
      Reach allowFlags strictDist s → st ∈ s.stickies →
      Reach allowFlags strictDist (addSticky s st)
  | removeOp (s s' : PaneState) (st : Sticky) :
      Reach allowFlags strictDist s →
      (st ∈ s.stickies ∨ ∀ old ∈ s.stickies, StickyApart old st) →
      removeSticky s st = Except.ok s' →
      Reach allowFlags strictDist s'
  | sortOp (s : PaneState) (i : Nat) :
      Reach allowFlags strictDist s →
      Reach allowFlags strictDist (sortStickyById s i)
  | notifyOp (s : PaneState) :
      Reach allowFlags strictDist s →
      Reach allowFlags strictDist s
  | updateOp (s : PaneState) :
      Reach allowFlags strictDist s →
      Reach allowFlags strictDist (updateStickyRefHeights s)
  | flagsOp (s : PaneState) (i : Nat) (cT cB iT iB : Bool) :
      Reach allowFlags strictDist s → allowFlags = true →
      Reach allowFlags strictDist (setFlagsById s i cT cB iT iB)

theorem apartFrom_iff (o : Option Nat) (st : Sticky) :
    apartFrom o st = true ↔
      ∀ x, o = some x → st.stickyContentTop ≠ some x ∧ st.stickyContentBottom ≠ some x := by
  cases o with
  | none => simp [apartFrom]
  | some a =>
    simp [apartFrom, Bool.and_eq_true, Bool.not_eq_true', beq_eq_false_iff_ne]

theorem stickyApart_symm : Symmetric StickyApart := by
  intro a b h
  obtain ⟨hid, ht, hb⟩ := h
  rw [apartFrom_iff] at ht hb
  refine ⟨hid.symm, ?_, ?_⟩
  · rw [apartFrom_iff]
    intro x hbx
    exact ⟨fun hax => (ht x hax).1 hbx, fun hax => (hb x hax).1 hbx⟩
  · rw [apartFrom_iff]
    intro x hbx
    exact ⟨fun hax => (ht x hax).2 hbx, fun hax => (hb x hax).2 hbx⟩

theorem distNe_symm : Symmetric distNe := fun _ _ h => h.symm

theorem insertByDist_perm (x : Sticky) (l : List Sticky) :
    List.Perm (insertByDist x l) (x :: l) := by
  induction l with
  | nil => simp [insertByDist]
  | cons y ys ih =>
    unfold insertByDist
    split
    · exact ((ih.cons y).trans (List.Perm.swap x y ys)).symm.symm
    · exact List.Perm.refl _

theorem sortByDist_perm (l : List Sticky) : List.Perm (sortByDist l) l := by
  induction l with
  | nil => exact List.Perm.refl _
  | cons x xs ih =>
    exact (insertByDist_perm x (sortByDist xs)).trans (ih.cons x)

theorem pairwise_le_insertByDist (x : Sticky) (l : List Sticky)
    (h : l.Pairwise distLe) : (insertByDist x l).Pairwise distLe := by
  induction l with
  | nil => simp [insertByDist, List.Pairwise]
  | cons y ys ih =>
    unfold insertByDist
    split
    · rename_i hlt
      rw [List.pairwise_cons] at h
      refine List.Pairwise.cons ?_ (ih h.2)
      intro b hb
      have hmem : b ∈ x :: ys := (insertByDist_perm x ys).mem_iff.1 hb
      rcases List.mem_cons.1 hmem with hbx | hby
      · subst hbx
        exact le_of_lt hlt
      · exact h.1 b hby
    · rename_i hge
      refine List.Pairwise.cons ?_ h
      intro b hb
      rcases List.mem_cons.1 hb with hbx | hby
      · subst hbx
        exact le_of_not_lt hge
      · rw [List.pairwise_cons] at h
        exact le_trans (le_of_not_lt hge) (h.1 b hby)

theorem pairwise_le_sortByDist (l : List Sticky) : (sortByDist l).Pairwise distLe := by
  induction l with
  | nil => exact List.Pairwise.nil
  | cons x xs ih => exact pairwise_le_insertByDist x (sortByDist xs) ih

theorem find?_split {α : Type} {p : α → Bool} :
    ∀ {l : List α} {t : α}, l.find? p = some t →
      ∃ l1 l2, l = l1 ++ t :: l2 ∧ (∀ x ∈ l1, p x = false) ∧ p t = true := by
  intro l
  induction l with
  | nil => intro t h; simp [List.find?] at h
  | cons y ys ih =>
    intro t h
    rcases hp : p y with _ | _
    · rw [List.find?_cons, hp] at h
      obtain ⟨l1, l2, heq, hl1, hpt⟩ := ih h
      refine ⟨y :: l1, l2, by rw [heq]; rfl, ?_, hpt⟩
      intro x hx
      rcases List.mem_cons.1 hx with hxy | hxl
      · subst hxy; exact hp
      · exact hl1 x hxl
    · rw [List.find?_cons, hp] at h
      obtain rfl : y = t := by injection h
      exact ⟨[], ys, rfl, by simp, hp⟩

theorem forall₂_mem_left {α β : Type} {R : α → β → Prop} :
    ∀ {l1 : List α} {l2 : List β}, List.Forall₂ R l1 l2 → ∀ x ∈ l1, ∃ y ∈ l2, R x y := by
  intro l1
  induction l1 with
  | nil => intro l2 h x hx; simp at hx
  | cons a l ih =>
    intro l2 h x hx
    cases h with
    | cons hab htail =>
      rcases List.mem_cons.1 hx with hxa | hxl
      · subst hxa
        exact ⟨_, List.mem_cons_self _ _, hab⟩
      · obtain ⟨y, hy, hr⟩ := ih htail x hxl
        exact ⟨y, List.mem_cons_of_mem _ hy, hr⟩

theorem forall₂_mem_right {α β : Type} {R : α → β → Prop} :
    ∀ {l1 : List α} {l2 : List β}, List.Forall₂ R l1 l2 → ∀ y ∈ l2, ∃ x ∈ l1, R x y := by
  intro l1
  induction l1 with
  | nil => intro l2 h y hy; cases h; simp at hy
  | cons a l ih =>
    intro l2 h y hy
    cases h with
    | cons hab htail =>
      rcases List.mem_cons.1 hy with hya | hyl
      · subst hya
        exact ⟨a, List.mem_cons_self _ _, hab⟩
      · obtain ⟨x, hx, hr⟩ := ih htail y hyl
        exact ⟨x, List.mem_cons_of_mem _ hx, hr⟩

theorem forall₂_split_left {α β : Type} {R : α → β → Prop} :
    ∀ (l1 : List α) (t : α) (l2 : List α) (l' : List β),
      List.Forall₂ R (l1 ++ t :: l2) l' →
      ∃ m1 u m2, l' = m1 ++ u :: m2 ∧ List.Forall₂ R l1 m1 ∧ R t u ∧ List.Forall₂ R l2 m2 := by
  intro l1
  induction l1 with
  | nil =>
    intro t l2 l' h
    cases h with
    | cons hab htail => exact ⟨[], _, _, rfl, List.Forall₂.nil, hab, htail⟩
  | cons a l ih =>
    intro t l2 l' h
    cases h with
    | cons hab htail =>
      obtain ⟨m1, u, m2, heq, h1, h2, h3⟩ := ih t l2 _ htail
      exact ⟨_ :: m1, u, m2, by simp [heq], List.Forall₂.cons hab h1, h2, h3⟩

theorem insertBeforeGo_split (t x : Nat) :
    ∀ (l1 l2 : List Nat), t ∉ l1 →
      insertBeforeGo t x (l1 ++ t :: l2) = l1 ++ x :: t :: l2 := by
  intro l1
  induction l1 with
  | nil => intro l2 h; simp [insertBeforeGo]
  | cons y ys ih =>
    intro l2 h
    have hyt : ¬ y = t := fun hc => h (hc ▸ List.mem_cons_self _ _)
    show insertBeforeGo t x (y :: (ys ++ t :: l2)) = y :: (ys ++ x :: t :: l2)
    unfold insertBeforeGo
    rw [if_neg hyt, ih l2 (fun hc => h (List.mem_cons_of_mem _ hc))]

theorem eq_of_pairwise_lt :
    ∀ (l1 l2 : List Sticky), l1.Pairwise distLt → l2.Pairwise distLt →
      (∀ x, x ∈ l1 ↔ x ∈ l2) → l1 = l2 := by
  intro l1
  induction l1 with
  | nil =>
    intro l2 _ _ hm
    cases l2 with
    | nil => rfl
    | cons y ys => exact absurd ((hm y).2 (List.mem_cons_self _ _)) (by simp)
  | cons x xs ih =>
    intro l2 h1 h2 hm
    cases l2 with
    | nil => exact absurd ((hm x).1 (List.mem_cons_self _ _)) (by simp)
    | cons y ys =>
      rw [List.pairwise_cons] at h1 h2
      have hxy : x = y := by
        by_contra hne
        have hx2 : x ∈ y :: ys := (hm x).1 (List.mem_cons_self _ _)
        have hy1 : y ∈ x :: xs := (hm y).2 (List.mem_cons_self _ _)
        rcases List.mem_cons.1 hx2 with h | hxys
        · exact hne h
        · rcases List.mem_cons.1 hy1 with h | hyxs
          · exact hne h.symm
          · have hlt1 : distLt x y := h1.1 y hyxs
            have hlt2 : distLt y x := h2.1 x hxys
            exact absurd (lt_trans hlt1 hlt2) (lt_irrefl _)
      subst hxy
      have hmtail : ∀ z, z ∈ xs ↔ z ∈ ys := by
        intro z
        constructor
        · intro hz
          have hzx : ¬ z = x := fun hc =>
            absurd (h1.1 z hz) (by rw [hc]; exact lt_irrefl _)
          rcases List.mem_cons.1 ((hm z).1 (List.mem_cons_of_mem _ hz)) with h | h
          · exact absurd h hzx
          · exact h
        · intro hz
          have hzx : ¬ z = x := fun hc =>
            absurd (h2.1 z hz) (by rw [hc]; exact lt_irrefl _)
          rcases List.mem_cons.1 ((hm z).2 (List.mem_cons_of_mem _ hz)) with h | h
          · exact absurd h hzx
          · exact h
      rw [ih ys h1.2 h2.2 hmtail]

theorem rep_unique {reg : List Sticky} (hwf : reg.Pairwise StickyApart) {side : Side}
    {s1 s2 : Sticky} (h1 : s1 ∈ reg) (h2 : s2 ∈ reg) {e : Nat}
    (hr1 : repOf side s1 = some e) (hr2 : repOf side s2 = some e) : s1 = s2 := by
  by_contra hne
  have hap := hwf.forall stickyApart_symm h1 h2 hne
  obtain ⟨_, ht, hb⟩ := hap
  rw [apartFrom_iff] at ht hb
  cases side with
  | top =>
    unfold repOf at hr1 hr2
    exact (ht e hr1).1 hr2
  | bottom =>
    unfold repOf at hr1 hr2
    exact (hb e hr1).2 hr2

theorem mem_eraseP_of_pfalse {α : Type} {p : α → Bool} :
    ∀ {l : List α} {x : α}, x ∈ l → p x = false → x ∈ l.eraseP p := by
  intro l
  induction l with
  | nil => intro x hx; simp at hx
  | cons a as ih =>
    intro x hx hp
    rcases hpa : p a with _ | _
    · rw [List.eraseP_cons, hpa]
      simp only [cond_false]
      rcases List.mem_cons.1 hx with hxa | hxl
      · subst hxa; exact List.mem_cons_self _ _
      · exact List.mem_cons_of_mem _ (ih hxl hp)
    · rw [List.eraseP_cons, hpa]
      simp only [cond_true]
      rcases List.mem_cons.1 hx with hxa | hxl
      · subst hxa; rw [hp] at hpa; exact Bool.noConfusion hpa
      · exact hxl

theorem candidateList_eq (reg : List Sticky) (sticky : Sticky) (side : Side)
    (hpred : (side = Side.top ∧ sticky.canStickyTop = true) ∨ sticky.canStickyBottom = true) :
    candidateList reg sticky side = reg := by
  unfold candidateList
  have hp : (fun (_ : Sticky) =>
      (if side = Side.top ∧ sticky.canStickyTop = true then true else sticky.canStickyBottom))
      = fun _ => true := by
    funext z
    by_cases hc : side = Side.top ∧ sticky.canStickyTop = true
    · rw [if_pos hc]
    · rw [if_neg hc]
      rcases hpred with h | h
      · exact absurd h hc
      · exact h
  rw [hp, List.filter_true]

theorem mem_candidateListSorted (reg : List Sticky) (sticky : Sticky) (side : Side)
    (children : List Nat)
    (hpred : (side = Side.top ∧ sticky.canStickyTop = true) ∨ sticky.canStickyBottom = true) :
    ∀ x, x ∈ candidateListSorted reg sticky side children ↔
      x ∈ reg ∧ ∃ e, repOf side x = some e ∧ e ∈ children := by
  intro x
  unfold candidateListSorted
  rw [candidateList_eq reg sticky side hpred]
  rw [List.mem_filter]
  constructor
  · rintro ⟨hmem, hp⟩
    refine ⟨(sortByDist_perm reg).mem_iff.1 hmem, ?_⟩
    rcases hrep : repOf side x with _ | e
    · rw [hrep] at hp
      simp at hp
    · rw [hrep] at hp
      exact ⟨e, rfl, by simpa using hp⟩
  · rintro ⟨hmem, e, hrep, he⟩
    refine ⟨(sortByDist_perm reg).mem_iff.2 hmem, ?_⟩
    rw [hrep]
    simpa using he

theorem candidateListSorted_pairwise_lt (reg : List Sticky) (sticky : Sticky) (side : Side)
    (children : List Nat) (hdist : reg.Pairwise distNe) :
    (candidateListSorted reg sticky side children).Pairwise distLt := by
  unfold candidateListSorted
  apply List.Pairwise.filter
  have hle : (sortByDist (candidateList reg sticky side)).Pairwise distLe :=
    pairwise_le_sortByDist _
  have hne : (sortByDist (candidateList reg sticky side)).Pairwise distNe := by
    refine (List.Perm.pairwise_iff (fun h => distNe_symm h)
      (sortByDist_perm (candidateList reg sticky side))).2 ?_
    exact List.Pairwise.filter _ hdist
  exact (hle.and hne).imp (fun h => lt_of_le_of_ne h.1 h.2)

theorem addToStickyContainer_insert_eq (reg : List Sticky) (sticky : Sticky) (side : Side)
    (c : Nat) (children : List Nat)
    (hlen : ¬ children.length = 0) (hcont : ¬ children.contains c = true) :
    addToStickyContainer reg sticky side c children =
      insertBefore children c
        (match (candidateListSorted reg sticky side children).find?
            (fun item => decide (sticky.distanceFromTop ≤ item.distanceFromTop)) with
         | some t => repOf side t
         | none => none) := by
  unfold addToStickyContainer
  rw [if_neg hlen, if_neg hcont]

theorem ContOK_addToStickyContainer
    (reg : List Sticky) (sticky : Sticky) (side : Side) (c : Nat) (children : List Nat)
    (hwf : reg.Pairwise StickyApart)
    (hdist : reg.Pairwise distNe)
    (hmem : sticky ∈ reg)
    (hrep : repOf side sticky = some c)
    (hpred : (side = Side.top ∧ sticky.canStickyTop = true) ∨ sticky.canStickyBottom = true)
    (hok : ContOK reg side children) :
    ContOK reg side (addToStickyContainer reg sticky side c children) := by
  by_cases hlen : children.length = 0
  · have hnil : children = [] := List.length_eq_zero.1 hlen
    subst hnil
    unfold addToStickyContainer
    simp only [List.length_nil, if_pos rfl]
    exact ⟨[sticky], by simp [List.forall₂_cons, ownsRep, hmem, hrep], by simp⟩
  by_cases hcont : children.contains c = true
  · rw [addToStickyContainer_of_contains reg sticky side c children hcont]
    exact hok
  obtain ⟨ow, how, hlt⟩ := hok
  have hS : candidateListSorted reg sticky side children = ow := by
    apply eq_of_pairwise_lt _ _
      (candidateListSorted_pairwise_lt reg sticky side children hdist) hlt
    intro x
    rw [mem_candidateListSorted reg sticky side children hpred x]
    constructor
    · rintro ⟨hx, e, hxr, he⟩
      obtain ⟨y, hy, hyr⟩ := forall₂_mem_right how e he
      have hyx : y = x := rep_unique hwf hyr.1 hx hyr.2 hxr
      exact hyx ▸ hy
    · intro hx
      obtain ⟨e, he, hr⟩ := forall₂_mem_left how x hx
      exact ⟨hr.1, e, hr.2, he⟩
  rw [addToStickyContainer_insert_eq reg sticky side c children hlen hcont, hS]
  rcases hfind : ow.find? (fun item => decide (sticky.distanceFromTop ≤ item.distanceFromTop))
    with _ | t
  · rw [hfind]
    show ContOK reg side (children ++ [c])
    have hall : ∀ x ∈ ow, x.distanceFromTop < sticky.distanceFromTop := by
      intro x hx
      have h1 := List.find?_eq_none.1 hfind x hx
      simp only [decide_eq_true_eq] at h1
      exact lt_of_not_le h1
    refine ⟨ow ++ [sticky], ?_, ?_⟩
    · exact List.rel_append how (by simp [List.forall₂_cons, ownsRep, hmem, hrep])
    · rw [List.pairwise_append]
      refine ⟨hlt, by simp, ?_⟩
      intro a ha b hb
      have hbs : b = sticky := by simpa using hb
      subst hbs
      exact hall a ha
  · rw [hfind]
    show ContOK reg side (insertBefore children c (repOf side t))
    obtain ⟨ow1, ow2, howeq, hfail, hpt⟩ := find?_split hfind
    have how' := howeq ▸ how
    obtain ⟨ch1, ct, ch2, hcheq, hf1, hft, hf2⟩ := forall₂_split_left ow1 t ow2 children how'
    have hltsplit := howeq ▸ hlt
    rw [List.pairwise_append] at hltsplit
    obtain ⟨hp1, hp2, hrel⟩ := hltsplit
    have hctnotin : ct ∉ ch1 := by
      intro hin
      obtain ⟨y, hy, hyr⟩ := forall₂_mem_right hf1 ct hin
      have hyt : y = t := rep_unique hwf hyr.1 hft.1 hyr.2 hft.2
      subst hyt
      exact absurd (hrel y hy y (List.mem_cons_self _ _)) (lt_irrefl _)
    have hctmem : ct ∈ children := by
      rw [hcheq]
      exact List.mem_append_right _ (List.mem_cons_self _ _)
    have hne : sticky ≠ t := by
      intro hceq
      apply hcont
      have : some c = some ct := by
        rw [← hrep, ← hft.2, hceq]
      injection this with hcc
      subst hcc
      simpa using hctmem
    have hlt_st : distLt sticky t := by
      have hle : sticky.distanceFromTop ≤ t.distanceFromTop := by
        simpa using hpt
      have hnee : sticky.distanceFromTop ≠ t.distanceFromTop :=
        hdist.forall distNe_symm hmem hft.1 hne
      exact lt_of_le_of_ne hle hnee
    rw [hft.2]
    show ContOK reg side (insertBeforeGo ct c children)
    rw [hcheq, insertBeforeGo_split ct c ch1 ch2 hctnotin]
    refine ⟨ow1 ++ sticky :: t :: ow2, ?_, ?_⟩
    · exact List.rel_append hf1
        (List.Forall₂.cons ⟨hmem, hrep⟩ (List.Forall₂.cons hft hf2))
    · rw [List.pairwise_append]
      refine ⟨hp1, ?_, ?_⟩
      · rw [List.pairwise_cons]
        refine ⟨?_, hp2⟩
        intro b hb
        rcases List.mem_cons.1 hb with hbt | hbow
        · exact hbt ▸ hlt_st
        · rw [List.pairwise_cons] at hp2
          exact lt_trans hlt_st (hp2.1 b hbow)
      · intro a ha b hb
        rcases List.mem_cons.1 hb with hbs | hb2
        · subst hbs
          have h1 := hfail a ha
          simp only [decide_eq_true_eq] at h1
          exact lt_of_not_le (by simpa using h1)
        · exact hrel a ha b hb2

theorem mem_insertBeforeGo_iff (t x : Nat) :
    ∀ (l : List Nat) (e : Nat), e ∈ insertBeforeGo t x l ↔ e = x ∨ e ∈ l := by
  intro l
  induction l with
  | nil => intro e; simp [insertBeforeGo]
  | cons y ys ih =>
    intro e
    unfold insertBeforeGo
    by_cases hyt : y = t
    · rw [if_pos hyt]
      simp only [List.mem_cons]
      try tauto
    · rw [if_neg hyt]
      simp only [List.mem_cons, ih e]
      try tauto

theorem mem_addToStickyContainer_iff (reg : List Sticky) (sticky : Sticky) (side : Side)
    (c : Nat) (children : List Nat) :
    ∀ e, e ∈ addToStickyContainer reg sticky side c children ↔ e = c ∨ e ∈ children := by
  intro e
  by_cases hlen : children.length = 0
  · have hnil : children = [] := List.length_eq_zero.1 hlen
    subst hnil
    unfold addToStickyContainer
    simp
  by_cases hcont : children.contains c = true
  · rw [addToStickyContainer_of_contains reg sticky side c children hcont]
    constructor
    · exact Or.inr
    · rintro (rfl | h)
      · simpa using hcont
      · exact h
  rw [addToStickyContainer_insert_eq reg sticky side c children hlen hcont]
  rcases hfind : (candidateListSorted reg sticky side children).find?
      (fun item => decide (sticky.distanceFromTop ≤ item.distanceFromTop)) with _ | t
  · rw [hfind]
    show e ∈ children ++ [c] ↔ _
    simp only [List.mem_append, List.mem_singleton]
    tauto
  · rw [hfind]
    show e ∈ insertBefore children c (repOf side t) ↔ _
    rcases hrt : repOf side t with _ | ct
    · show e ∈ children ++ [c] ↔ _
      simp only [List.mem_append, List.mem_singleton]
      tauto
    · show e ∈ insertBeforeGo ct c children ↔ _
      exact mem_insertBeforeGo_iff ct c children e

theorem nodup_insertBeforeGo (t x : Nat) :
    ∀ (l : List Nat), x ∉ l → l.Nodup → (insertBeforeGo t x l).Nodup := by
  intro l
  induction l with
  | nil => intro _ _; simp [insertBeforeGo]
  | cons y ys ih =>
    intro hx hn
    unfold insertBeforeGo
    rw [List.nodup_cons] at hn
    by_cases hyt : y = t
    · rw [if_pos hyt]
      refine List.nodup_cons.2 ⟨?_, List.nodup_cons.2 hn⟩
      simp only [List.mem_cons]
      push_neg
      exact ⟨fun hc => hx (hc ▸ List.mem_cons_self _ _),
        fun hc => hx (List.mem_cons_of_mem _ hc)⟩
    · rw [if_neg hyt]
      refine List.nodup_cons.2 ⟨?_, ih (fun hc => hx (List.mem_cons_of_mem _ hc)) hn.2⟩
      rw [mem_insertBeforeGo_iff]
      push_neg
      exact ⟨fun hc => hx (hc ▸ List.mem_cons_self _ _), hn.1⟩

theorem nodup_addToStickyContainer (reg : List Sticky) (sticky : Sticky) (side : Side)
    (c : Nat) (children : List Nat) (hn : children.Nodup) :
    (addToStickyContainer reg sticky side c children).Nodup := by
  by_cases hlen : children.length = 0
  · have hnil : children = [] := List.length_eq_zero.1 hlen
    subst hnil
    unfold addToStickyContainer
    simp
  by_cases hcont : children.contains c = true
  · rw [addToStickyContainer_of_contains reg sticky side c children hcont]
    exact hn
  have hcx : c ∉ children := fun hc => hcont (by simpa using hc)
  rw [addToStickyContainer_insert_eq reg sticky side c children hlen hcont]
  rcases hfind : (candidateListSorted reg sticky side children).find?
      (fun item => decide (sticky.distanceFromTop ≤ item.distanceFromTop)) with _ | t
  · rw [hfind]
    show (children ++ [c]).Nodup
    simp [List.nodup_append, hn, hcx]
  · rw [hfind]
    show (insertBefore children c (repOf side t)).Nodup
    rcases hrt : repOf side t with _ | ct
    · show (children ++ [c]).Nodup
      simp [List.nodup_append, hn, hcx]
    · show (insertBeforeGo ct c children).Nodup
      exact nodup_insertBeforeGo ct c children hcx hn

theorem tApp_withLoc (above : List Nat) (x : Sticky) :
    ∃ l, tApp above x = { x with contentLoc := l } := by
  rcases tApp_total above x with ⟨rt, _, _, _, hfire⟩ | ⟨hid, _⟩
  · exact ⟨Loc.inTopRep, hfire⟩
  · exact ⟨x.contentLoc, by rw [hid]⟩

theorem bApp_withLoc (below : List Nat) (y : Sticky) :
    ∃ l, bApp below y = { y with contentLoc := l } := by
  rcases bApp_total below y with ⟨rb, _, _, _, hsh⟩ | ⟨hid, _⟩
  · rcases hsh with ⟨_, hfire⟩ | ⟨_, hfire⟩
    · exact ⟨Loc.inTopRep, hfire⟩
    · exact ⟨Loc.inBottomRep, hfire⟩
  · exact ⟨y.contentLoc, by rw [hid]⟩

theorem checkStickyStatus_fst_withLoc (s : PaneState) (st : Sticky) :
    ∃ l, (checkStickyStatus s st).1 = { st with contentLoc := l } := by
  rcases hao : s.stickyAbove with _ | above
  · exact ⟨st.contentLoc, by rw [checkStickyStatus_none s st (Or.inl hao)]⟩
  rcases hbo : s.stickyBelow with _ | below
  · exact ⟨st.contentLoc, by rw [checkStickyStatus_none s st (Or.inr hbo)]⟩
  by_cases hg : s.contentContainer = true ∧ st.nonStickyContent.isSome = true
  · cases hf : (st.isStickyTop || st.isStickyBottom) with
    | true =>
      obtain ⟨l1, h1⟩ := tApp_withLoc above st
      obtain ⟨l2, h2⟩ := bApp_withLoc below (tApp above st)
      refine ⟨l2, ?_⟩
      rw [checkStickyStatus_unfold_some s st above below hao hbo, if_pos hg, if_pos hf,
        checkBottomEdge_fst, checkTopEdge_fst, h2, h1]
    | false =>
      by_cases hloc : st.contentLoc = Loc.inContent
      · refine ⟨st.contentLoc, ?_⟩
        rw [checkStickyStatus_unfold_some s st above below hao hbo, if_pos hg,
          if_neg (by simp [hf]), if_pos hloc]
      · refine ⟨Loc.inContent, ?_⟩
        rw [checkStickyStatus_unfold_some s st above below hao hbo, if_pos hg,
          if_neg (by simp [hf]), if_neg hloc]
        rfl
  · refine ⟨st.contentLoc, ?_⟩
    rw [checkStickyStatus_unfold_some s st above below hao hbo, if_neg hg]

theorem apartFrom_congr (o : Option Nat) (a b : Sticky)
    (ht : a.stickyContentTop = b.stickyContentTop)
    (hb : a.stickyContentBottom = b.stickyContentBottom) :
    apartFrom o a = apartFrom o b := by
  cases o <;> simp [apartFrom, ht, hb]

theorem stickyApart_of_sameKey {a a' b b' : Sticky} (ha : sameKey a a') (hb : sameKey b b')
    (h : StickyApart a b) : StickyApart a' b' := by
  obtain ⟨hid, ht, hbt⟩ := h
  obtain ⟨ha1, _, ha3, ha4⟩ := ha
  obtain ⟨hb1, _, hb3, hb4⟩ := hb
  refine ⟨ha1 ▸ hb1 ▸ hid, ?_, ?_⟩
  · have heq : apartFrom a'.stickyContentTop b' = apartFrom a.stickyContentTop b := by
      rw [← ha3]
      exact (apartFrom_congr _ b b' hb3 hb4).symm
    rw [heq]
    exact ht
  · have heq : apartFrom a'.stickyContentBottom b' = apartFrom a.stickyContentBottom b := by
      rw [← ha4]
      exact (apartFrom_congr _ b b' hb3 hb4).symm
    rw [heq]
    exact hbt

theorem repOf_sameKey (side : Side) {a b : Sticky} (h : sameKey a b) :
    repOf side a = repOf side b := by
  cases side with
  | top => exact h.2.2.1
  | bottom => exact h.2.2.2

theorem wf_map (reg : List Sticky) (f : Sticky → Sticky) (hf : ∀ a, sameKey a (f a))
    (h : reg.Pairwise StickyApart) : (reg.map f).Pairwise StickyApart := by
  rw [List.pairwise_map]
  exact h.imp (fun {a b} hab => stickyApart_of_sameKey (hf a) (hf b) hab)

theorem distNe_map (reg : List Sticky) (f : Sticky → Sticky) (hf : ∀ a, sameKey a (f a))
    (h : reg.Pairwise distNe) : (reg.map f).Pairwise distNe := by
  rw [List.pairwise_map]
  refine h.imp (fun {a b} hab => ?_)
  unfold distNe at hab ⊢
  rw [← (hf a).2.1, ← (hf b).2.1]
  exact hab

theorem ContOK_map (reg : List Sticky) (side : Side) (children : List Nat)
    (f : Sticky → Sticky) (hf : ∀ a, sameKey a (f a)) (hok : ContOK reg side children) :
    ContOK (reg.map f) side children := by
  obtain ⟨ow, how, hlt⟩ := hok
  refine ⟨ow.map f, ?_, ?_⟩
  · rw [List.forall₂_map_left_iff]
    refine how.imp (fun a b hab => ?_)
    exact ⟨List.mem_map_of_mem f hab.1, by rw [← repOf_sameKey side (hf a)]; exact hab.2⟩
  · rw [List.pairwise_map]
    refine hlt.imp (fun {a b} hab => ?_)
    unfold distLt at hab ⊢
    rw [← (hf a).2.1, ← (hf b).2.1]
    exact hab

/-- Ordering invariant of reachable pane states: a well-formed registry
(pairwise distinct identities and representation nodes, pairwise distinct
distances) and each mounted container's children being the
representations of a strictly distance-sorted list of registered owners. -/
structure OrdInv (s : PaneState) : Prop where
  wf : s.stickies.Pairwise StickyApart
  distinct : s.stickies.Pairwise distNe
  mounted : s.contentContainer = true
  okTop : ∀ above, s.stickyAbove = some above → ContOK s.stickies Side.top above
  okBot : ∀ below, s.stickyBelow = some below → ContOK s.stickies Side.bottom below

theorem OrdInv_initial : OrdInv initialPane := by
  refine ⟨List.Pairwise.nil, List.Pairwise.nil, rfl, ?_, ?_⟩ <;>
    · intro l h
      injection h with h
      exact h ▸ ⟨[], List.Forall₂.nil, List.Pairwise.nil⟩

theorem ContOK_placeEdge (reg : List Sticky) (st : Sticky) (side : Side) (children : List Nat)
    (hwf : reg.Pairwise StickyApart) (hdist : reg.Pairwise distNe) (hmem : st ∈ reg)
    (hok : ContOK reg side children) :
    ContOK reg side (placeEdge reg st side children) := by
  unfold placeEdge
  split
  · rename_i hcap
    rcases Option.eq_none_or_eq_some (repOf side st) with hr | ⟨cc, hr⟩
    · rw [hr]
      exact hok
    · rw [hr]
      refine ContOK_addToStickyContainer reg st side cc children hwf hdist hmem hr ?_ hok
      cases side with
      | top => exact Or.inl ⟨rfl, hcap⟩
      | bottom => exact Or.inr hcap
  · exact hok

theorem OrdInv_sortSticky (s : PaneState) (st : Sticky) (hmem : st ∈ s.stickies)
    (hinv : OrdInv s) : OrdInv (sortSticky s st) := by
  rcases ha : s.stickyAbove with _ | above
  · rw [sortSticky_none_left s st ha]
    exact hinv
  rcases hb : s.stickyBelow with _ | below
  · rw [sortSticky_none_right s st hb]
    exact hinv
  rw [sortSticky_some s st above below ha hb]
  refine ⟨hinv.wf, hinv.distinct, hinv.mounted, ?_, ?_⟩
  · intro above' h
    injection h with h
    subst h
    exact ContOK_placeEdge s.stickies st Side.top above hinv.wf hinv.distinct hmem
      (hinv.okTop above ha)
  · intro below' h
    injection h with h
    subst h
    exact ContOK_placeEdge s.stickies st Side.bottom below hinv.wf hinv.distinct hmem
      (hinv.okBot below hb)

theorem addSticky_eq_of_mounted (s : PaneState) (st : Sticky) (hm : s.contentContainer = true) :
    addSticky s st = sortSticky { s with stickies := addToSet s.stickies st } st := by
  unfold addSticky
  rw [if_pos hm]

theorem addToSet_fresh (reg : List Sticky) (st : Sticky)
    (hfresh : ∀ old ∈ reg, StickyApart old st) : addToSet reg st = reg ++ [st] := by
  have h0 : reg.any (fun x => x.id == st.id) = false :=
    List.any_eq_false.2 (fun x hx => by simpa using (hfresh x hx).1)
  unfold addToSet
  simp [h0]

theorem addToSet_mem (reg : List Sticky) (st : Sticky) (hmem : st ∈ reg) :
    addToSet reg st = reg := by
  have h0 : reg.any (fun x => x.id == st.id) = true := List.any_eq_true.2 ⟨st, hmem, by simp⟩
  unfold addToSet
  simp [h0]

theorem ContOK_append (reg : List Sticky) (st : Sticky) (side : Side) (children : List Nat)
    (hok : ContOK reg side children) : ContOK (reg ++ [st]) side children := by
  obtain ⟨ow, how, hlt⟩ := hok
  exact ⟨ow, how.imp (fun a b hab => ⟨List.mem_append_left _ hab.1, hab.2⟩), hlt⟩

theorem OrdInv_addSticky_fresh (s : PaneState) (st : Sticky)
    (hfresh : ∀ old ∈ s.stickies, StickyApart old st)
    (hdistf : ∀ old ∈ s.stickies, old.distanceFromTop ≠ st.distanceFromTop)
    (hinv : OrdInv s) : OrdInv (addSticky s st) := by
  rw [addSticky_eq_of_mounted s st hinv.mounted, addToSet_fresh s.stickies st hfresh]
  have hinv1 : OrdInv { s with stickies := s.stickies ++ [st] } := by
    refine ⟨?_, ?_, hinv.mounted, ?_, ?_⟩
    · rw [List.pairwise_append]
      refine ⟨hinv.wf, by simp, ?_⟩
      intro a ha b hb
      have hbs : b = st := by simpa using hb
      subst hbs
      exact hfresh a ha
    · rw [List.pairwise_append]
      refine ⟨hinv.distinct, by simp, ?_⟩
      intro a ha b hb
      have hbs : b = st := by simpa using hb
      subst hbs
      exact hdistf a ha
    · intro above h
      exact ContOK_append _ st _ _ (hinv.okTop above h)
    · intro below h
      exact ContOK_append _ st _ _ (hinv.okBot below h)
  exact OrdInv_sortSticky _ st (List.mem_append_right _ (List.mem_singleton.2 rfl)) hinv1

theorem OrdInv_addSticky_re (s : PaneState) (st : Sticky) (hmem : st ∈ s.stickies)
    (hinv : OrdInv s) : OrdInv (addSticky s st) := by
  rw [addSticky_eq_of_mounted s st hinv.mounted, addToSet_mem s.stickies st hmem]
  exact OrdInv_sortSticky { s with stickies := s.stickies } st hmem hinv

theorem OrdInv_sortStickyById (s : PaneState) (i : Nat) (hinv : OrdInv s) :
    OrdInv (sortStickyById s i) := by
  rcases hfind : s.stickies.find? (fun st => st.id == i) with _ | st
  · have heq : sortStickyById s i = s := by
      unfold sortStickyById
      rw [hfind]
    rw [heq]
    exact hinv
  · have heq : sortStickyById s i = sortSticky s st := by
      unfold sortStickyById
      rw [hfind]
    rw [heq]
    exact OrdInv_sortSticky s st (List.mem_of_find?_eq_some hfind) hinv

theorem OrdInv_update (s : PaneState) (hinv : OrdInv s) :
    OrdInv (updateStickyRefHeights s) := by
  have hf : ∀ a : Sticky,
      sameKey a (if a.nonStickyContent.isSome then (checkStickyStatus s a).1 else a) := by
    intro a
    by_cases h : a.nonStickyContent.isSome = true
    · rw [if_pos h]
      obtain ⟨l, hl⟩ := checkStickyStatus_fst_withLoc s a
      rw [hl]
      exact ⟨rfl, rfl, rfl, rfl⟩
    · rw [if_neg h]
      exact ⟨rfl, rfl, rfl, rfl⟩
  unfold updateStickyRefHeights
  refine ⟨wf_map _ _ hf hinv.wf, distNe_map _ _ hf hinv.distinct, hinv.mounted, ?_, ?_⟩
  · intro above h
    exact ContOK_map _ _ _ _ hf (hinv.okTop above h)
  · intro below h
    exact ContOK_map _ _ _ _ hf (hinv.okBot below h)

theorem OrdInv_setFlags (s : PaneState) (i : Nat) (cT cB iT iB : Bool) (hinv : OrdInv s) :
    OrdInv (setFlagsById s i cT cB iT iB) := by
  have hf : ∀ a : Sticky,
      sameKey a (if a.id == i then
        { a with canStickyTop := cT, canStickyBottom := cB,
                 isStickyTop := iT, isStickyBottom := iB } else a) := by
    intro a
    by_cases h : (a.id == i) = true
    · rw [if_pos h]
      exact ⟨rfl, rfl, rfl, rfl⟩
    · rw [if_neg h]
      exact ⟨rfl, rfl, rfl, rfl⟩
  unfold setFlagsById
  refine ⟨wf_map _ _ hf hinv.wf, distNe_map _ _ hf hinv.distinct, hinv.mounted, ?_, ?_⟩
  · intro above h
    exact ContOK_map _ _ _ _ hf (hinv.okTop above h)
  · intro below h
    exact ContOK_map _ _ _ _ hf (hinv.okBot below h)

theorem removeSticky_ok_char (s s' : PaneState) (st : Sticky)
    (h : removeSticky s st = Except.ok s') :
    s'.stickies = s.stickies.eraseP (fun x => x.id == st.id) ∧
    s'.contentContainer = s.contentContainer ∧
    ((∃ above c, s.stickyAbove = some above ∧ st.stickyContentTop = some c ∧
        above.contains c = true ∧ s'.stickyAbove = some (above.erase c)) ∨
      ((s.stickyAbove = none ∨ st.stickyContentTop = none) ∧ s'.stickyAbove = s.stickyAbove)) ∧
    ((∃ below c, s.stickyBelow = some below ∧ st.stickyContentBottom = some c ∧
        below.contains c = true ∧ s'.stickyBelow = some (below.erase c)) ∨
      ((s.stickyBelow = none ∨ st.stickyContentBottom = none) ∧ s'.stickyBelow = s.stickyBelow)) := by
  unfold removeSticky removeStickyFromContainers removeChild at h
  rcases ha : s.stickyAbove with _ | above <;>
    rcases hrt : st.stickyContentTop with _ | c <;>
    rcases hb : s.stickyBelow with _ | below <;>
    rcases hrb : st.stickyContentBottom with _ | d <;>
    simp only [ha, hrt, hb, hrb] at h <;>
    repeat' split at h
  all_goals
    first
      | exact (Except.noConfusion h)
      | (injection h with h
         subst h
         refine ⟨rfl, rfl, ?_, ?_⟩ <;> try simp_all)
  all_goals
    (split_ifs at *
     simp_all)

theorem forall₂_imp_mem {α β : Type} {R S : α → β → Prop} :
    ∀ {l1 : List α} {l2 : List β}, List.Forall₂ R l1 l2 →
      (∀ a b, a ∈ l1 → b ∈ l2 → R a b → S a b) → List.Forall₂ S l1 l2 := by
  intro l1
  induction l1 with
  | nil =>
    intro l2 h _
    cases h
    exact List.Forall₂.nil
  | cons a l ih =>
    intro l2 h himp
    cases h with
    | cons hab htail =>
      refine List.Forall₂.cons
        (himp _ _ (List.mem_cons_self _ _) (List.mem_cons_self _ _) hab) ?_
      refine ih htail (fun x y hx hy hr => ?_)
      exact himp x y (List.mem_cons_of_mem _ hx) (List.mem_cons_of_mem _ hy) hr

theorem id_ne_of_mem_apart {reg : List Sticky} (hwf : reg.Pairwise StickyApart)
    {a st : Sticky} (ha : a ∈ reg) (hst : st ∈ reg) (hne : a ≠ st) :
    (a.id == st.id) = false := by
  have hap := hwf.forall stickyApart_symm ha hst hne
  simpa using hap.1

theorem not_mem_eraseP_self {reg : List Sticky} (hwf : reg.Pairwise StickyApart)
    {st : Sticky} (hmem : st ∈ reg) :
    st ∉ reg.eraseP (fun x => x.id == st.id) := by
  induction reg with
  | nil => simp at hmem
  | cons a rest ih =>
    rw [List.pairwise_cons] at hwf
    rcases hpa : (a.id == st.id) with _ | _
    · rw [List.eraseP_cons, hpa]
      simp only [cond_false]
      intro hc
      rcases List.mem_cons.1 hc with hca | hcr
      · subst hca
        simp at hpa
      · rcases List.mem_cons.1 hmem with hma | hmr
        · subst hma
          simp at hpa
        · exact ih hwf.2 hmr hcr
    · rw [List.eraseP_cons, hpa]
      simp only [cond_true]
      intro hc
      rcases List.mem_cons.1 hmem with hma | hmr
      · subst hma
        have := (hwf.1 st hc).1
        exact this rfl
      · have := (hwf.1 st hmr).1
        have hba : a.id = st.id := by simpa using hpa
        exact this hba

theorem eraseP_fresh {reg : List Sticky} {st : Sticky}
    (hfresh : ∀ old ∈ reg, StickyApart old st) :
    reg.eraseP (fun x => x.id == st.id) = reg := by
  refine List.eraseP_of_forall_not (fun a ha => ?_)
  simpa using (hfresh a ha).1

theorem ContOK_erase_reg_of_not_owner {reg : List Sticky} {side : Side} {children : List Nat}
    {st : Sticky} (hwf : reg.Pairwise StickyApart) (hmem : st ∈ reg)
    (hno : repOf side st = none ∨ ∀ e ∈ children, ¬ repOf side st = some e)
    (hok : ContOK reg side children) :
    ContOK (reg.eraseP (fun x => x.id == st.id)) side children := by
  obtain ⟨ow, how, hlt⟩ := hok
  refine ⟨ow, forall₂_imp_mem how (fun a b ha hb hr => ?_), hlt⟩
  have hane : a ≠ st := by
    intro hc
    subst hc
    rcases hno with hn | hn
    · rw [hr.2] at hn
      exact Option.noConfusion hn
    · exact hn b hb hr.2
  exact ⟨mem_eraseP_of_pfalse hr.1 (id_ne_of_mem_apart hwf hr.1 hmem hane), hr.2⟩

theorem ContOK_erase_child {reg : List Sticky} {side : Side} {l : List Nat} {st : Sticky}
    {c : Nat} (hwf : reg.Pairwise StickyApart) (hmem : st ∈ reg)
    (hrep : repOf side st = some c) (hok : ContOK reg side l) :
    ContOK (reg.eraseP (fun x => x.id == st.id)) side (l.erase c) := by
  obtain ⟨ow, how, hlt⟩ := hok
  by_cases hcmem : c ∈ l
  · obtain ⟨y, hy, hyr⟩ := forall₂_mem_right how c hcmem
    have hys : y = st := rep_unique hwf hyr.1 hmem hyr.2 hrep
    subst hys
    obtain ⟨ow1, ow2, howeq⟩ := List.append_of_mem hy
    subst howeq
    obtain ⟨ch1, u, ch2, hcheq, hf1, hfu, hf2⟩ := forall₂_split_left ow1 y ow2 l how
    have huc : u = c := by
      have h2 := hfu.2
      rw [hrep] at h2
      injection h2 with h2
      exact h2.symm
    rw [huc] at hcheq
    rw [List.pairwise_append] at hlt
    obtain ⟨hp1, hp2, hrel⟩ := hlt
    have hcnotin : c ∉ ch1 := by
      intro hin
      obtain ⟨o, ho, hor⟩ := forall₂_mem_right hf1 c hin
      have hos : o = y := rep_unique hwf hor.1 hmem hor.2 hrep
      subst hos
      exact absurd (hrel o ho o (List.mem_cons_self _ _)) (lt_irrefl _)
    have herase : l.erase c = ch1 ++ ch2 := by
      rw [hcheq, List.erase_append_right _ hcnotin, List.erase_cons_head]
    rw [herase]
    rw [List.pairwise_cons] at hp2
    refine ⟨ow1 ++ ow2, List.rel_append ?_ ?_, ?_⟩
    · refine forall₂_imp_mem hf1 (fun a b ha hb hr => ?_)
      have hane : a ≠ y := by
        intro hc
        subst hc
        exact absurd (hrel a ha a (List.mem_cons_self _ _)) (lt_irrefl _)
      exact ⟨mem_eraseP_of_pfalse hr.1 (id_ne_of_mem_apart hwf hr.1 hmem hane), hr.2⟩
    · refine forall₂_imp_mem hf2 (fun a b ha hb hr => ?_)
      have hane : a ≠ y := by
        intro hc
        subst hc
        exact absurd (hp2.1 a ha) (lt_irrefl _)
      exact ⟨mem_eraseP_of_pfalse hr.1 (id_ne_of_mem_apart hwf hr.1 hmem hane), hr.2⟩
    · rw [List.pairwise_append]
      refine ⟨hp1, hp2.2, ?_⟩
      intro a ha b hb
      exact hrel a ha b (List.mem_cons_of_mem _ hb)
  · rw [List.erase_of_not_mem hcmem]
    refine ContOK_erase_reg_of_not_owner hwf hmem (Or.inr ?_) ⟨ow, how, hlt⟩
    intro e he hc
    rw [hrep] at hc
    injection hc with hc
    exact hcmem (hc ▸ he)

theorem OrdInv_remove (s s' : PaneState) (st : Sticky)
    (harg : st ∈ s.stickies ∨ ∀ old ∈ s.stickies, StickyApart old st)
    (h : removeSticky s st = Except.ok s')
    (hinv : OrdInv s) : OrdInv s' := by
  obtain ⟨hreg, hcc, htop, hbot⟩ := removeSticky_ok_char s s' st h
  rcases harg with hmem | hfresh
  · refine ⟨?_, ?_, ?_, ?_, ?_⟩
    · rw [hreg]
      exact List.Pairwise.sublist (List.eraseP_sublist _) hinv.wf
    · rw [hreg]
      exact List.Pairwise.sublist (List.eraseP_sublist _) hinv.distinct
    · rw [hcc]
      exact hinv.mounted
    · rcases htop with ⟨above, c, hsa, hstc, hcont, hsa'⟩ | ⟨hnone, hsame⟩
      · intro ab h'
        rw [hsa'] at h'
        injection h' with h'
        subst h'
        rw [hreg]
        exact ContOK_erase_child hinv.wf hmem (show repOf Side.top st = some c from hstc)
          (hinv.okTop above hsa)
      · intro ab h'
        rw [hsame] at h'
        rw [hreg]
        rcases hnone with hn | hn
        · rw [hn] at h'
          exact Option.noConfusion h'
        · exact ContOK_erase_reg_of_not_owner hinv.wf hmem
            (Or.inl (show repOf Side.top st = none from hn)) (hinv.okTop ab h')
    · rcases hbot with ⟨below, c, hsb, hstc, hcont, hsb'⟩ | ⟨hnone, hsame⟩
      · intro bl h'
        rw [hsb'] at h'
        injection h' with h'
        subst h'
        rw [hreg]
        exact ContOK_erase_child hinv.wf hmem (show repOf Side.bottom st = some c from hstc)
          (hinv.okBot below hsb)
      · intro bl h'
        rw [hsame] at h'
        rw [hreg]
        rcases hnone with hn | hn
        · rw [hn] at h'
          exact Option.noConfusion h'
        · exact ContOK_erase_reg_of_not_owner hinv.wf hmem
            (Or.inl (show repOf Side.bottom st = none from hn)) (hinv.okBot bl h')
  · have hre : s.stickies.eraseP (fun x => x.id == st.id) = s.stickies := eraseP_fresh hfresh
    refine ⟨?_, ?_, ?_, ?_, ?_⟩
    · rw [hreg, hre]
      exact hinv.wf
    · rw [hreg, hre]
      exact hinv.distinct
    · rw [hcc]
      exact hinv.mounted
    · rcases htop with ⟨above, c, hsa, hstc, hcont, hsa'⟩ | ⟨hnone, hsame⟩
      · exfalso
        obtain ⟨ow, how, _⟩ := hinv.okTop above hsa
        have hcm : c ∈ above := by simpa using hcont
        obtain ⟨y, hy, hyr⟩ := forall₂_mem_right how c hcm
        have hap := hfresh y hyr.1
        have h2 := hap.2.1
        rw [apartFrom_iff] at h2
        exact (h2 c (show y.stickyContentTop = some c from hyr.2)).1 hstc
      · intro ab h'
        rw [hsame] at h'
        rw [hreg, hre]
        exact hinv.okTop ab h'
    · rcases hbot with ⟨below, c, hsb, hstc, hcont, hsb'⟩ | ⟨hnone, hsame⟩
      · exfalso
        obtain ⟨ow, how, _⟩ := hinv.okBot below hsb
        have hcm : c ∈ below := by simpa using hcont
        obtain ⟨y, hy, hyr⟩ := forall₂_mem_right how c hcm
        have hap := hfresh y hyr.1
        have h2 := hap.2.2
        rw [apartFrom_iff] at h2
        exact (h2 c (show y.stickyContentBottom = some c from hyr.2)).2 hstc
      · intro bl h'
        rw [hsame] at h'
        rw [hreg, hre]
        exact hinv.okBot bl h'

theorem reach_OrdInv {a : Bool} {s : PaneState} (h : Reach a true s) : OrdInv s := by
  induction h with
  | init => exact OrdInv_initial
  | addFresh s1 st _ hfresh hdistf ih => exact OrdInv_addSticky_fresh s1 st hfresh (hdistf rfl) ih
  | reAdd s1 st _ hmem ih => exact OrdInv_addSticky_re s1 st hmem ih
  | removeOp s1 s2 st _ harg hok ih => exact OrdInv_remove s1 s2 st harg hok ih
  | sortOp s1 i _ ih => exact OrdInv_sortStickyById s1 i ih
  | notifyOp s1 _ ih => exact ih
  | updateOp s1 _ ih => exact OrdInv_update s1 ih
  | flagsOp s1 i cT cB iT iB _ ha ih => exact OrdInv_setFlags s1 i cT cB iT iB ih

theorem forall₂_pairwise_transfer {α β : Type} {R : α → β → Prop} {P : α → α → Prop}
    {Q : β → β → Prop} :
    ∀ {l1 : List α} {l2 : List β}, List.Forall₂ R l1 l2 → l1.Pairwise P →
      (∀ a b x y, R a x → R b y → P a b → Q x y) → l2.Pairwise Q := by
  intro l1
  induction l1 with
  | nil =>
    intro l2 h _ _
    cases h
    exact List.Pairwise.nil
  | cons a l ih =>
    intro l2 h hp htr
    cases h with
    | cons hab htail =>
      rw [List.pairwise_cons] at hp
      refine List.Pairwise.cons ?_ (ih htail hp.2 htr)
      intro y hy
      obtain ⟨b, hb, hrb⟩ := forall₂_mem_right htail y hy
      exact htr a b _ y hab hrb (hp.1 b hb)

theorem sortedChildren_of_ContOK {reg : List Sticky} {side : Side} {children : List Nat}
    (hwf : reg.Pairwise StickyApart) (hok : ContOK reg side children) :
    SortedChildren reg side children := by
  obtain ⟨ow, how, hlt⟩ := hok
  refine forall₂_pairwise_transfer how hlt ?_
  intro a b x y hax hby hab
  intro s1 hs1 s2 hs2 hr1 hr2
  have h1 : s1 = a := rep_unique hwf hs1 hax.1 hr1 hax.2
  have h2 : s2 = b := rep_unique hwf hs2 hby.1 hr2 hby.2
  subst h1
  subst h2
  exact le_of_lt hab

instance (reg : List Sticky) (side : Side) (a b : Nat) : Decidable (ownerLe reg side a b) := by
  unfold ownerLe
  infer_instance

instance (reg : List Sticky) (side : Side) (ch : List Nat) :
    Decidable (SortedChildren reg side ch) := by
  unfold SortedChildren
  infer_instance

instance (a b : Sticky) : Decidable (StickyApart a b) := by
  unfold StickyApart
  infer_instance

/-- First region of the C1 scenario: farther from the top. -/
def c1RegionA : Sticky :=
  { id := 1, canStickyTop := true, canStickyBottom := false, distanceFromTop := 10,
    isStickyTop := false, isStickyBottom := false, stickyContentTop := some 21,
    stickyContentBottom := none, nonStickyContent := some 91, offsetHeight := 30,
    contentLoc := Loc.inContent, hasRoot := true }

/-- Second region of the C1 scenario: closer to the top, added later. -/
def c1RegionB : Sticky :=
  { id := 2, canStickyTop := true, canStickyBottom := false, distanceFromTop := 5,
    isStickyTop := false, isStickyBottom := false, stickyContentTop := some 22,
    stickyContentBottom := none, nonStickyContent := some 92, offsetHeight := 40,
    contentLoc := Loc.inContent, hasRoot := true }

def c1TieB : Sticky :=
  { id := 11, canStickyTop := true, canStickyBottom := false, distanceFromTop := 7,
    isStickyTop := false, isStickyBottom := false, stickyContentTop := some 31,
    stickyContentBottom := none, nonStickyContent := some 93, offsetHeight := 10,
    contentLoc := Loc.inContent, hasRoot := true }

def c1TieA : Sticky :=
  { id := 12, canStickyTop := true, canStickyBottom := false, distanceFromTop := 7,
    isStickyTop := false, isStickyBottom := false, stickyContentTop := some 32,
    stickyContentBottom := none, nonStickyContent := some 94, offsetHeight := 10,
    contentLoc := Loc.inContent, hasRoot := true }

def c1TieC : Sticky :=
  { id := 13, canStickyTop := true, canStickyBottom := false, distanceFromTop := 5,
    isStickyTop := false, isStickyBottom := false, stickyContentTop := some 33,
    stickyContentBottom := none, nonStickyContent := some 95, offsetHeight := 10,
    contentLoc := Loc.inContent, hasRoot := true }

/-- The tie trace: three regions with distances 7, 7, 5 added in this order. -/
def c1TiePane : PaneState :=
  addSticky (addSticky (addSticky initialPane c1TieB) c1TieA) c1TieC

/-- C1 (amended): in every state reachable from mount by the pane's
operations in which the registered regions carry pairwise distinct
`distanceFromTop` values, each pinned container's children appear in
non-decreasing order of their owning regions' distance from the top; in
particular, in the two-region scenario (distances 10 then 5) the later,
closer region's representation is placed first.  The original claim is
refuted for equal distances by `c1_order_fails_on_ties`. -/
theorem pinned_container_order :
    (∀ (a : Bool) (s : PaneState), Reach a true s →
      (∀ above, s.stickyAbove = some above → SortedChildren s.stickies Side.top above) ∧
      (∀ below, s.stickyBelow = some below → SortedChildren s.stickies Side.bottom below)) ∧
    (addSticky (addSticky initialPane c1RegionA) c1RegionB).stickyAbove = some [22, 21] := by
  constructor
  · intro a s h
    have hinv := reach_OrdInv h
    exact ⟨fun ab hab => sortedChildren_of_ContOK hinv.wf (hinv.okTop ab hab),
           fun bl hbl => sortedChildren_of_ContOK hinv.wf (hinv.okBot bl hbl)⟩
  · decide

/-- Concrete instantiation of the C1 theorem on the two-region scenario. -/
theorem pinned_container_order_witness :
    Reach true true (addSticky (addSticky initialPane c1RegionA) c1RegionB) ∧
    SortedChildren (addSticky (addSticky initialPane c1RegionA) c1RegionB).stickies Side.top
      [22, 21] := by
  have hr : Reach true true (addSticky (addSticky initialPane c1RegionA) c1RegionB) :=
    Reach.addFresh _ _ (Reach.addFresh _ _ Reach.init (by decide) (by decide))
      (by decide) (by decide)
  exact ⟨hr, (pinned_container_order.1 true _ hr).1 [22, 21] pinned_container_order.2⟩

/-- Counterexample to C1 as stated: with equal distances (7, 7, 5 added in
this order) the trace is reachable, yet the top container's children
[32, 33, 31] have owner distances 7, 5, 7 — not non-decreasing. -/
theorem c1_order_fails_on_ties :
    Reach true false c1TiePane ∧
    c1TiePane.stickyAbove = some [32, 33, 31] ∧
    ¬ SortedChildren c1TiePane.stickies Side.top [32, 33, 31] := by
  refine ⟨?_, by decide, by decide⟩
  exact Reach.addFresh _ _
    (Reach.addFresh _ _ (Reach.addFresh _ _ Reach.init (by decide) (by decide))
      (by decide) (by decide))
    (by decide) (by decide)

/-- The capability flag `sortSticky` consults for the given edge:
`canStickyTop` for the top container, `canStickyBottom` for the bottom. -/
def canOf (side : Side) (st : Sticky) : Bool :=
  match side with
  | Side.top => st.canStickyTop
  | Side.bottom => st.canStickyBottom

/-- Membership characterisation of a container: duplicate-free children
that are exactly the representations of the registered regions whose
capability flag for this edge is set. -/
def MemOK (reg : List Sticky) (side : Side) (children : List Nat) : Prop :=
  children.Nodup ∧
    ∀ e, e ∈ children ↔ ∃ st ∈ reg, canOf side st = true ∧ repOf side st = some e

/-- Membership invariant of reachable pane states (without external flag
changes): a well-formed registry, the content container and both pinned
containers mounted, and each container's membership tracking the
capability flags. -/
structure MemInv (s : PaneState) : Prop where
  wf : s.stickies.Pairwise StickyApart
  mounted : s.contentContainer = true
  aboveSome : s.stickyAbove.isSome = true
  belowSome : s.stickyBelow.isSome = true
  okTop : ∀ above, s.stickyAbove = some above → MemOK s.stickies Side.top above
  okBot : ∀ below, s.stickyBelow = some below → MemOK s.stickies Side.bottom below

theorem MemInv_initial : MemInv initialPane := by
  refine ⟨List.Pairwise.nil, rfl, rfl, rfl, ?_, ?_⟩ <;>
    · intro ch h
      injection h with h
      subst h
      exact ⟨List.nodup_nil, by simp [initialPane]⟩

theorem MemOK_placeEdge_extend (reg : List Sticky) (st : Sticky) (side : Side)
    (children : List Nat) (hok : MemOK reg side children) :
    MemOK (reg ++ [st]) side (placeEdge (reg ++ [st]) st side children) := by
  obtain ⟨hnd, hiff⟩ := hok
  unfold placeEdge
  split
  · rename_i hcan
    have hcan' : canOf side st = true := hcan
    rcases hrep : repOf side st with _ | c
    · refine ⟨hnd, fun e => ?_⟩
      rw [hiff e]
      constructor
      · rintro ⟨x, hx, hxc, hxr⟩
        exact ⟨x, List.mem_append_left _ hx, hxc, hxr⟩
      · rintro ⟨x, hx, hxc, hxr⟩
        rcases List.mem_append.1 hx with hx | hx
        · exact ⟨x, hx, hxc, hxr⟩
        · have hxs : x = st := by simpa using hx
          subst hxs
          rw [hrep] at hxr
          exact Option.noConfusion hxr
    · refine ⟨nodup_addToStickyContainer _ _ _ _ _ hnd, fun e => ?_⟩
      rw [mem_addToStickyContainer_iff (reg ++ [st]) st side c children e]
      constructor
      · rintro (rfl | he)
        · exact ⟨st, List.mem_append_right _ (List.mem_singleton_self st), hcan', hrep⟩
        · obtain ⟨x, hx, hxc, hxr⟩ := (hiff e).1 he
          exact ⟨x, List.mem_append_left _ hx, hxc, hxr⟩
      · rintro ⟨x, hx, hxc, hxr⟩
        rcases List.mem_append.1 hx with hx | hx
        · exact Or.inr ((hiff e).2 ⟨x, hx, hxc, hxr⟩)
        · have hxs : x = st := by simpa using hx
          subst hxs
          rw [hrep] at hxr
          injection hxr with hxr
          exact Or.inl hxr.symm
  · rename_i hcan
    have hcan' : ¬ canOf side st = true := hcan
    refine ⟨hnd, fun e => ?_⟩
    rw [hiff e]
    constructor
    · rintro ⟨x, hx, hxc, hxr⟩
      exact ⟨x, List.mem_append_left _ hx, hxc, hxr⟩
    · rintro ⟨x, hx, hxc, hxr⟩
      rcases List.mem_append.1 hx with hx | hx
      · exact ⟨x, hx, hxc, hxr⟩
      · have hxs : x = st := by simpa using hx
        subst hxs
        exact absurd hxc hcan'

theorem placeEdge_memOK_eq (reg : List Sticky) (st : Sticky) (side : Side)
    (children : List Nat) (hst : st ∈ reg) (hok : MemOK reg side children) :
    placeEdge reg st side children = children := by
  unfold placeEdge
  split
  · rename_i hcan
    have hcan' : canOf side st = true := hcan
    rcases hrep : repOf side st with _ | c
    · rfl
    · refine addToStickyContainer_of_contains _ _ _ _ _ ?_
      have hc : c ∈ children := (hok.2 c).2 ⟨st, hst, hcan', hrep⟩
      simpa using hc
  · rfl

theorem MemOK_map (reg : List Sticky) (side : Side) (children : List Nat)
    (f : Sticky → Sticky) (hcan : ∀ a, canOf side (f a) = canOf side a)
    (hrep : ∀ a, repOf side (f a) = repOf side a) (hok : MemOK reg side children) :
    MemOK (reg.map f) side children := by
  refine ⟨hok.1, fun e => ?_⟩
  rw [hok.2 e]
  constructor
  · rintro ⟨a, ha, hc, hr⟩
    refine ⟨f a, List.mem_map_of_mem f ha, ?_, ?_⟩
    · rw [hcan a]
      exact hc
    · rw [hrep a]
      exact hr
  · rintro ⟨x, hx, hc, hr⟩
    obtain ⟨a, ha, rfl⟩ := List.mem_map.1 hx
    refine ⟨a, ha, ?_, ?_⟩
    · rw [← hcan a]
      exact hc
    · rw [← hrep a]
      exact hr

theorem MemInv_sortSticky (s : PaneState) (st : Sticky) (hst : st ∈ s.stickies)
    (hinv : MemInv s) : MemInv (sortSticky s st) := by
  rcases ha0 : s.stickyAbove with _ | above
  · have h := hinv.aboveSome
    rw [ha0] at h
    exact absurd h (by simp)
  rcases hb0 : s.stickyBelow with _ | below
  · have h := hinv.belowSome
    rw [hb0] at h
    exact absurd h (by simp)
  rw [sortSticky_some s st above below ha0 hb0]
  refine ⟨hinv.wf, hinv.mounted, rfl, rfl, ?_, ?_⟩
  · intro ab h
    injection h with h
    subst h
    rw [placeEdge_memOK_eq s.stickies st Side.top above hst (hinv.okTop above ha0)]
    exact hinv.okTop above ha0
  · intro bl h
    injection h with h
    subst h
    rw [placeEdge_memOK_eq s.stickies st Side.bottom below hst (hinv.okBot below hb0)]
    exact hinv.okBot below hb0

theorem MemInv_addSticky_fresh (s : PaneState) (st : Sticky)
    (hfresh : ∀ old ∈ s.stickies, StickyApart old st) (hinv : MemInv s) :
    MemInv (addSticky s st) := by
  rcases ha0 : s.stickyAbove with _ | above
  · have h := hinv.aboveSome
    rw [ha0] at h
    exact absurd h (by simp)
  rcases hb0 : s.stickyBelow with _ | below
  · have h := hinv.belowSome
    rw [hb0] at h
    exact absurd h (by simp)
  rw [addSticky_eq_of_mounted s st hinv.mounted, addToSet_fresh s.stickies st hfresh]
  have ha1 : ({ s with stickies := s.stickies ++ [st] } : PaneState).stickyAbove = some above := ha0
  have hb1 : ({ s with stickies := s.stickies ++ [st] } : PaneState).stickyBelow = some below := hb0
  rw [sortSticky_some _ st above below ha1 hb1]
  refine ⟨?_, hinv.mounted, rfl, rfl, ?_, ?_⟩
  · rw [List.pairwise_append]
    refine ⟨hinv.wf, by simp, ?_⟩
    intro a ha b hb
    have hbs : b = st := by simpa using hb
    subst hbs
    exact hfresh a ha
  · intro ab h
    injection h with h
    subst h
    exact MemOK_placeEdge_extend s.stickies st Side.top above (hinv.okTop above ha0)
  · intro bl h
    injection h with h
    subst h
    exact MemOK_placeEdge_extend s.stickies st Side.bottom below (hinv.okBot below hb0)

theorem MemInv_addSticky_re (s : PaneState) (st : Sticky) (hmem : st ∈ s.stickies)
    (hinv : MemInv s) : MemInv (addSticky s st) := by
  rw [addSticky_eq_of_mounted s st hinv.mounted, addToSet_mem s.stickies st hmem]
  exact MemInv_sortSticky { s with stickies := s.stickies } st hmem hinv

theorem MemInv_sortStickyById (s : PaneState) (i : Nat) (hinv : MemInv s) :
    MemInv (sortStickyById s i) := by
  rcases hfind : s.stickies.find? (fun st => st.id == i) with _ | st
  · have heq : sortStickyById s i = s := by
      unfold sortStickyById
      rw [hfind]
    rw [heq]
    exact hinv
  · have heq : sortStickyById s i = sortSticky s st := by
      unfold sortStickyById
      rw [hfind]
    rw [heq]
    exact MemInv_sortSticky s st (List.mem_of_find?_eq_some hfind) hinv

theorem MemInv_update (s : PaneState) (hinv : MemInv s) :
    MemInv (updateStickyRefHeights s) := by
  have hloc : ∀ a : Sticky, ∃ l,
      (if a.nonStickyContent.isSome then (checkStickyStatus s a).1 else a) =
        { a with contentLoc := l } := by
    intro a
    by_cases h : a.nonStickyContent.isSome = true
    · rw [if_pos h]
      exact checkStickyStatus_fst_withLoc s a
    · rw [if_neg h]
      exact ⟨a.contentLoc, rfl⟩
  have hf : ∀ a : Sticky,
      sameKey a (if a.nonStickyContent.isSome then (checkStickyStatus s a).1 else a) := by
    intro a
    obtain ⟨l, hl⟩ := hloc a
    rw [hl]
    exact ⟨rfl, rfl, rfl, rfl⟩
  have hcan : ∀ (side : Side) (a : Sticky),
      canOf side (if a.nonStickyContent.isSome then (checkStickyStatus s a).1 else a) =
        canOf side a := by
    intro side a
    obtain ⟨l, hl⟩ := hloc a
    rw [hl]
    cases side <;> rfl
  have hrep : ∀ (side : Side) (a : Sticky),
      repOf side (if a.nonStickyContent.isSome then (checkStickyStatus s a).1 else a) =
        repOf side a := by
    intro side a
    obtain ⟨l, hl⟩ := hloc a
    rw [hl]
    cases side <;> rfl
  unfold updateStickyRefHeights
  refine ⟨wf_map _ _ hf hinv.wf, hinv.mounted, hinv.aboveSome, hinv.belowSome, ?_, ?_⟩
  · intro above h
    exact MemOK_map _ _ _ _ (hcan Side.top) (hrep Side.top) (hinv.okTop above h)
  · intro below h
    exact MemOK_map _ _ _ _ (hcan Side.bottom) (hrep Side.bottom) (hinv.okBot below h)

theorem MemInv_remove (s s' : PaneState) (st : Sticky)
    (harg : st ∈ s.stickies ∨ ∀ old ∈ s.stickies, StickyApart old st)
    (h : removeSticky s st = Except.ok s') (hinv : MemInv s) : MemInv s' := by
  obtain ⟨hreg, hcc, htop, hbot⟩ := removeSticky_ok_char s s' st h
  rcases harg with hmem | hfresh
  · have hsub : ∀ x, x ∈ s'.stickies → x ∈ s.stickies := by
      rw [hreg]
      intro x hx
      exact List.mem_of_mem_eraseP hx
    have hkeep : ∀ x, x ∈ s.stickies → x ≠ st → x ∈ s'.stickies := by
      rw [hreg]
      intro x hx hne
      exact mem_eraseP_of_pfalse hx (id_ne_of_mem_apart hinv.wf hx hmem hne)
    have hstout : st ∉ s'.stickies := by
      rw [hreg]
      exact not_mem_eraseP_self hinv.wf hmem
    have hwf' : s'.stickies.Pairwise StickyApart := by
      rw [hreg]
      exact List.Pairwise.sublist (List.eraseP_sublist _) hinv.wf
    refine ⟨hwf', ?_, ?_, ?_, ?_, ?_⟩
    · rw [hcc]
      exact hinv.mounted
    · rcases htop with ⟨above, c, hsa, hstc, hcont, hsa'⟩ | ⟨hnone, hsame⟩
      · rw [hsa']
        rfl
      · rw [hsame]
        exact hinv.aboveSome
    · rcases hbot with ⟨below, d, hsb, hstd, hcontb, hsb'⟩ | ⟨hnoneb, hsameb⟩
      · rw [hsb']
        rfl
      · rw [hsameb]
        exact hinv.belowSome
    · rcases htop with ⟨above, c, hsa, hstc, hcont, hsa'⟩ | ⟨hnone, hsame⟩
      · intro ab h'
        rw [hsa'] at h'
        injection h' with h'
        subst h'
        obtain ⟨hnd, hiff⟩ := hinv.okTop above hsa
        refine ⟨List.Nodup.erase c hnd, fun e => ?_⟩
        rw [List.Nodup.mem_erase_iff hnd]
        constructor
        · rintro ⟨hne, he⟩
          obtain ⟨x, hx, hxc, hxr⟩ := (hiff e).1 he
          have hxst : x ≠ st := by
            intro hxeq
            rw [hxeq] at hxr
            have hec : some e = some c :=
              hxr.symm.trans (show repOf Side.top st = some c from hstc)
            injection hec with hec
            exact hne hec
          exact ⟨x, hkeep x hx hxst, hxc, hxr⟩
        · rintro ⟨x, hx', hxc, hxr⟩
          have hx := hsub x hx'
          refine ⟨?_, (hiff e).2 ⟨x, hx, hxc, hxr⟩⟩
          intro hec
          rw [hec] at hxr
          have hxeq : x = st :=
            rep_unique hinv.wf hx hmem hxr (show repOf Side.top st = some c from hstc)
          exact hstout (hxeq ▸ hx')
      · have hrtn : st.stickyContentTop = none := by
          rcases hnone with hn | hn
          · have hA := hinv.aboveSome
            rw [hn] at hA
            exact absurd hA (by simp)
          · exact hn
        intro ab h'
        rw [hsame] at h'
        obtain ⟨hnd, hiff⟩ := hinv.okTop ab h'
        refine ⟨hnd, fun e => ?_⟩
        rw [hiff e]
        constructor
        · rintro ⟨x, hx, hxc, hxr⟩
          have hxst : x ≠ st := by
            intro hxeq
            rw [hxeq] at hxr
            rw [show repOf Side.top st = st.stickyContentTop from rfl, hrtn] at hxr
            exact Option.noConfusion hxr
          exact ⟨x, hkeep x hx hxst, hxc, hxr⟩
        · rintro ⟨x, hx', hxc, hxr⟩
          exact ⟨x, hsub x hx', hxc, hxr⟩
    · rcases hbot with ⟨below, d, hsb, hstd, hcontb, hsb'⟩ | ⟨hnoneb, hsameb⟩
      · intro bl h'
        rw [hsb'] at h'
        injection h' with h'
        subst h'
        obtain ⟨hnd, hiff⟩ := hinv.okBot below hsb
        refine ⟨List.Nodup.erase d hnd, fun e => ?_⟩
        rw [List.Nodup.mem_erase_iff hnd]
        constructor
        · rintro ⟨hne, he⟩
          obtain ⟨x, hx, hxc, hxr⟩ := (hiff e).1 he
          have hxst : x ≠ st := by
            intro hxeq
            rw [hxeq] at hxr
            have hec : some e = some d :=
              hxr.symm.trans (show repOf Side.bottom st = some d from hstd)
            injection hec with hec
            exact hne hec
          exact ⟨x, hkeep x hx hxst, hxc, hxr⟩
        · rintro ⟨x, hx', hxc, hxr⟩
          have hx := hsub x hx'
          refine ⟨?_, (hiff e).2 ⟨x, hx, hxc, hxr⟩⟩
          intro hec
          rw [hec] at hxr
          have hxeq : x = st :=
            rep_unique hinv.wf hx hmem hxr (show repOf Side.bottom st = some d from hstd)
          exact hstout (hxeq ▸ hx')
      · have hrbn : st.stickyContentBottom = none := by
          rcases hnoneb with hn | hn
          · have hB := hinv.belowSome
            rw [hn] at hB
            exact absurd hB (by simp)
          · exact hn
        intro bl h'
        rw [hsameb] at h'
        obtain ⟨hnd, hiff⟩ := hinv.okBot bl h'
        refine ⟨hnd, fun e => ?_⟩
        rw [hiff e]
        constructor
        · rintro ⟨x, hx, hxc, hxr⟩
          have hxst : x ≠ st := by
            intro hxeq
            rw [hxeq] at hxr
            rw [show repOf Side.bottom st = st.stickyContentBottom from rfl, hrbn] at hxr
            exact Option.noConfusion hxr
          exact ⟨x, hkeep x hx hxst, hxc, hxr⟩
        · rintro ⟨x, hx', hxc, hxr⟩
          exact ⟨x, hsub x hx', hxc, hxr⟩
  · have hre : s'.stickies = s.stickies := by
      rw [hreg]
      exact eraseP_fresh hfresh
    rcases htop with ⟨above, c, hsa, hstc, hcont, hsa'⟩ | ⟨hnone, hsame⟩
    · exfalso
      have hcm : c ∈ above := by simpa using hcont
      obtain ⟨x, hx, hxc, hxr⟩ := ((hinv.okTop above hsa).2 c).1 hcm
      have hap := (hfresh x hx).2.1
      rw [apartFrom_iff] at hap
      exact (hap c (show x.stickyContentTop = some c from hxr)).1 hstc
    · rcases hbot with ⟨below, d, hsb, hstd, hcontb, hsb'⟩ | ⟨hnoneb, hsameb⟩
      · exfalso
        have hdm : d ∈ below := by simpa using hcontb
        obtain ⟨x, hx, hxc, hxr⟩ := ((hinv.okBot below hsb).2 d).1 hdm
        have hap := (hfresh x hx).2.2
        rw [apartFrom_iff] at hap
        exact (hap d (show x.stickyContentBottom = some d from hxr)).2 hstd
      · refine ⟨?_, ?_, ?_, ?_, ?_, ?_⟩
        · rw [hre]
          exact hinv.wf
        · rw [hcc]
          exact hinv.mounted
        · rw [hsame]
          exact hinv.aboveSome
        · rw [hsameb]
          exact hinv.belowSome
        · intro ab h'
          rw [hsame] at h'
          rw [hre]
          exact hinv.okTop ab h'
        · intro bl h'
          rw [hsameb] at h'
          rw [hre]
          exact hinv.okBot bl h'

theorem reach_MemInv {s : PaneState} (h : Reach false false s) : MemInv s := by
  induction h with
  | init => exact MemInv_initial
  | addFresh s1 st _ hfresh _ ih => exact MemInv_addSticky_fresh s1 st hfresh ih
  | reAdd s1 st _ hmem ih => exact MemInv_addSticky_re s1 st hmem ih
  | removeOp s1 s2 st _ harg hok ih => exact MemInv_remove s1 s2 st harg hok ih
  | sortOp s1 i _ ih => exact MemInv_sortStickyById s1 i ih
  | notifyOp s1 _ ih => exact ih
  | updateOp s1 _ ih => exact MemInv_update s1 ih
  | flagsOp s1 i cT cB iT iB _ ha ih => exact absurd ha (by decide)

/-- Region of the C6 scenario: capable of sticking at the top but not
currently pinned there. -/
def c6Region : Sticky :=
  { id := 3, canStickyTop := true, canStickyBottom := false, distanceFromTop := 0,
    isStickyTop := false, isStickyBottom := false, stickyContentTop := some 51,
    stickyContentBottom := none, nonStickyContent := some 96, offsetHeight := 20,
    contentLoc := Loc.inContent, hasRoot := true }

/-- C6 (amended): at every state reachable by the public operations
(addSticky, removeSticky, sortSticky, updateStickyRefHeights,
notifySubscribers), a region's pinned representation is a child of the
top (resp. bottom) pinned container if and only if the owning region's
`canStickyTop` (resp. `canStickyBottom`) capability flag is true — not
its current `isStickyTop`/`isStickyBottom` pin state, against which the
original claim is refuted by `c6_pin_state_fails`. -/
theorem membership_tracks_capability :
    (∀ s : PaneState, Reach false false s →
      (∀ above, s.stickyAbove = some above →
        ∀ e, e ∈ above ↔
          ∃ st ∈ s.stickies, st.canStickyTop = true ∧ st.stickyContentTop = some e) ∧
      (∀ below, s.stickyBelow = some below →
        ∀ e, e ∈ below ↔
          ∃ st ∈ s.stickies, st.canStickyBottom = true ∧ st.stickyContentBottom = some e)) ∧
    ((addSticky initialPane c6Region).stickyAbove = some [51] ∧
      c6Region.isStickyTop = false) := by
  constructor
  · intro s h
    have hinv := reach_MemInv h
    exact ⟨fun ab hab e => (hinv.okTop ab hab).2 e, fun bl hbl e => (hinv.okBot bl hbl).2 e⟩
  · exact ⟨by decide, rfl⟩

/-- Concrete instantiation of the C6 theorem: after adding the
capable-but-unpinned region, its representation 51 is in the top
container and the membership equivalence evaluates on it. -/
theorem membership_tracks_capability_witness :
    Reach false false (addSticky initialPane c6Region) ∧
    (51 ∈ [51] ↔ ∃ st ∈ (addSticky initialPane c6Region).stickies,
      st.canStickyTop = true ∧ st.stickyContentTop = some 51) := by
  have hr : Reach false false (addSticky initialPane c6Region) :=
    Reach.addFresh _ _ Reach.init (by decide) (by decide)
  exact ⟨hr, (membership_tracks_capability.1 _ hr).1 [51] (by decide) 51⟩

/-- Counterexample to C6 as stated: a reachable quiescent state whose top
container holds representation 51 although no registered region has
`isStickyTop = true` — membership does not track the pin state. -/
theorem c6_pin_state_fails :
    Reach false false (addSticky initialPane c6Region) ∧
    (addSticky initialPane c6Region).stickyAbove = some [51] ∧
    ∀ st ∈ (addSticky initialPane c6Region).stickies, st.isStickyTop = false := by
  refine ⟨?_, by decide, by decide⟩
  exact Reach.addFresh _ _ Reach.init (by decide) (by decide)
